import Mathlib

/-!
Verification development for the dataset-materialization pipeline of
`src/datamodules/datasets/rs_kaggle_dataset.py` (class `RSKaggleDataset`).

The Python code is shallowly embedded:
* Python strings are Lean `String`s; Python string comparison (`sorted`,
  `<`) is modelled by `charListLe` on the underlying character lists,
  which is exactly lexicographic comparison by code point.
* `re.compile(r"\d+").findall(name)[0]` (the first run of digits) is
  modelled by `firstDigitRun`; `int(...)` on the digits by `charsToNat`.
* `f"{v:03d}"` is modelled by `format03_int` (decimal rendering padded
  with zeros to a minimum total width of 3, sign included).
* The filesystem is a set of existing paths (`FS.dirs`) plus the content
  of the persisted test-index file (`FS.test_idx_file`, modelling
  `torch.save`/`torch.load` of `_kaggle_test_indeces.pt`).
* `os.listdir` order is unspecified, so the directory listing is an
  explicit parameter of `process` and `dataset_init`.
* Python exceptions are `Except DsError`; `download` additionally
  reports how many times the Kaggle download collaborator was invoked.
-/

namespace RSKaggle

/-! ### Python string primitives -/

/-- Lexicographic `<=` on character lists by code point: the comparison
Python uses for `str` ordering (and hence for `sorted` on strings). -/
def charListLe : List Char → List Char → Bool
  | [], _ => true
  | _ :: _, [] => false
  | a :: as, b :: bs => if a < b then true else if b < a then false else charListLe as bs

/-- Python string `<=`, used by `sorted(images)` / `sorted(masks)`. -/
def str_le (s t : String) : Bool := charListLe s.data t.data

/-- `list_starts p s`: is `p` an initial segment of `s`? -/
def list_starts : List Char → List Char → Bool
  | [], _ => true
  | _ :: _, [] => false
  | a :: as, b :: bs => a == b && list_starts as bs

/-- Python `s.startswith(p)`. -/
def starts_with (s p : String) : Bool := list_starts p.data s.data

/-- Helper for `substr_in`: does `p` occur as a contiguous run in `s`? -/
def substr_in_list (p : List Char) : List Char → Bool
  | [] => list_starts p []
  | c :: cs => list_starts p (c :: cs) || substr_in_list p cs

/-- Python `p in s` on strings (substring containment), used by the
`"image" in f` / `"mask" in f` filters of `process`. -/
def substr_in (p s : String) : Bool := substr_in_list p.data s.data

/-- Python `os.path.join(a, b)` for the cases arising here (`b` is a
relative name unless absolute). -/
def path_join (a b : String) : String :=
  if b.data.head? = some '/' then b
  else if a = "" then b
  else if a.data.getLast? = some '/' then a ++ b
  else a ++ "/" ++ b

/-- The last path component of `s` (everything after the final `/`). -/
def base_name (s : String) : String :=
  ⟨((s.data.reverse.takeWhile (fun c => c ≠ '/')).reverse)⟩

/-! ### Decimal rendering (`f"{v:03d}"`) -/

/-- The character for decimal digit `d`. -/
def digit_char (d : Nat) : Char := Char.ofNat (48 + d)

/-- Fuel-driven digit extraction (structural recursion so that concrete
values compute by kernel reduction). -/
def natDigitsAux : Nat → Nat → List Char
  | 0, _ => []
  | fuel + 1, n =>
    if n < 10 then [digit_char n]
    else natDigitsAux fuel (n / 10) ++ [digit_char (n % 10)]

/-- The decimal digits of `n`, most significant first, no leading zeros
(single `'0'` for 0). -/
def natDigits (n : Nat) : List Char := natDigitsAux (n + 1) n

theorem natDigitsAux_congr : ∀ {n f1 f2 : Nat}, n < f1 → n < f2 →
    natDigitsAux f1 n = natDigitsAux f2 n := by
  intro n
  induction n using Nat.strong_induction_on with
  | _ n ih =>
    intro f1 f2 h1 h2
    cases f1 with
    | zero => omega
    | succ k1 =>
      cases f2 with
      | zero => omega
      | succ k2 =>
        rw [natDigitsAux, natDigitsAux]
        by_cases h10 : n < 10
        · rw [if_pos h10, if_pos h10]
        · rw [if_neg h10, if_neg h10]
          have hlt : n / 10 < n := Nat.div_lt_self (by omega) (by omega)
          rw [ih (n / 10) hlt (show n / 10 < k1 by omega) (show n / 10 < k2 by omega)]

theorem natDigits_lt10 {n : Nat} (h : n < 10) : natDigits n = [digit_char n] := by
  rw [natDigits, natDigitsAux, if_pos h]

theorem natDigits_ge10 {n : Nat} (h : ¬ n < 10) :
    natDigits n = natDigits (n / 10) ++ [digit_char (n % 10)] := by
  rw [natDigits, natDigitsAux, if_neg h]
  have hlt : n / 10 < n := Nat.div_lt_self (by omega) (by omega)
  rw [natDigitsAux_congr (by omega) (by omega : n / 10 < n / 10 + 1)]
  rfl

/-- Pad `s` on the left with `'0'` to length at least `w`. -/
def padZeros (w : Nat) (s : List Char) : List Char :=
  List.replicate (w - s.length) '0' ++ s

/-- `f"{n:03d}"` for a nonnegative value. -/
def format03_nat (n : Nat) : String := ⟨padZeros 3 (natDigits n)⟩

/-- `f"{v:03d}"` for an `int`: total width (sign included) padded to 3. -/
def format03_int (v : Int) : String :=
  if v < 0 then ⟨'-' :: padZeros 2 (natDigits v.natAbs)⟩ else format03_nat v.toNat

/-! ### Parsing (`_img_number_from_name`) -/

/-- The numeric value of a digit string (`int` applied to the digits). -/
def charsToNat (l : List Char) : Nat := l.foldl (fun a c => 10 * a + (c.toNat - 48)) 0

/-- The first maximal run of digit characters, if any: the first match of
`re.compile(r"\d+")`. -/
def firstDigitRun : List Char → Option (List Char)
  | [] => none
  | c :: cs => if c.isDigit then some (c :: cs.takeWhile Char.isDigit) else firstDigitRun cs

/-- `RSKaggleDataset._img_number_from_name`:
`int(re.compile(r"\d+").findall(name)[0])`; `none` models the
`IndexError` raised when the name contains no digits. -/
def img_number_from_name (name : String) : Option Nat :=
  (firstDigitRun name.data).map charsToNat

/-! ### Class constants and canonical paths -/

def kaggle_competition : String := "cil-road-segmentation-2021"
def kaggle_folder_train_images : String := "training/training/images/"
def kaggle_folder_train_masks : String := "training/training/groundtruth/"
def kaggle_folder_test_images : String := "test_images/test_images/"
def kaggle_file_test_indeces : String := "_kaggle_test_indeces.pt"

/-- `_camel_to_snake("RSKaggleDataset")` evaluates to this constant. -/
def dataset_dir_name : String := "rs_kaggle_dataset"

def folder_raw (root : String) : String :=
  path_join (path_join root dataset_dir_name) "raw"

def folder_processed (root : String) : String :=
  path_join (path_join root dataset_dir_name) "processed"

def folder_train (root : String) : String := path_join (folder_processed root) "train"

def folder_test (root : String) : String := path_join (folder_processed root) "test"

/-- The canonical filename `unzip` assigns to a train image whose
original name parses to number `n`: `f"{n-1:03d}_image.png"`
(Python `n - 1` is an `int`, so the subtraction is over `Int`). -/
def train_image_filename (n : Nat) : String :=
  format03_int ((n : Int) - 1) ++ "_image.png"

/-- The canonical filename for a train mask numbered `n`. -/
def train_mask_filename (n : Nat) : String :=
  format03_int ((n : Int) - 1) ++ "_mask.png"

/-- The canonical filename for the test image at local counter `i`:
`f"{test_index:03d}_image.png"`. -/
def test_image_filename (i : Nat) : String := format03_nat i ++ "_image.png"

/-! ### Filesystem model and errors -/

/-- Errors of the pipeline:
* `notFound` — the `RuntimeError("Dataset not found. ...")` in `__init__`;
* `acquisition` — a failure of the Kaggle download collaborator;
* `parse` — the `IndexError` of `_img_number_from_name` on a name with
  no digits;
* `save` — `torch.save` failing because the test folder does not exist;
* `persistence` — `torch.load` failing because the index file is absent. -/
inductive DsError where
  | notFound : String → DsError
  | acquisition : String → DsError
  | parse : DsError
  | save : DsError
  | persistence : DsError
deriving DecidableEq, Repr

/-- The message of the `RuntimeError` raised by `__init__`. -/
def not_found_message : String :=
  "Dataset not found." ++ " You can use download=True to download it"

/-- The filesystem: the set of existing paths (directories and files),
and the persisted content of `_kaggle_test_indeces.pt` if written. -/
structure FS where
  dirs : List String
  test_idx_file : Option (List Nat)
deriving DecidableEq, Repr

def FS.insert (fs : FS) (p : String) : FS :=
  if p ∈ fs.dirs then fs else { fs with dirs := p :: fs.dirs }

/-- `zipdata.extract(zipinfo, folder)`: creates the target folder (and
the extracted file) if not present. -/
def FS.extract_to (fs : FS) (folder fname : String) : FS :=
  (fs.insert folder).insert (path_join folder fname)

/-- `RSKaggleDataset._check_exists`. -/
def check_exists (root : String) (train : Bool) (fs : FS) : Bool :=
  if train then folder_train root ∈ fs.dirs else folder_test root ∈ fs.dirs

/-! ### `unzip` -/

/-- The body of the first `if` of the train branch: the canonical file
the member contributes as a train image (empty if the member does not
match the train-images folder), or a parse error. -/
def member_train_image (m : String) : Except DsError (List String) :=
  if starts_with m kaggle_folder_train_images then
    match img_number_from_name m with
    | some n => .ok [train_image_filename n]
    | none => .error .parse
  else .ok []

/-- The body of the second `if` of the train branch (train masks). -/
def member_train_mask (m : String) : Except DsError (List String) :=
  if starts_with m kaggle_folder_train_masks then
    match img_number_from_name m with
    | some n => .ok [train_mask_filename n]
    | none => .error .parse
  else .ok []

/-- The member loop of `RSKaggleDataset.unzip` over the archive's member
names, threading the filesystem and (for TEST) the local counter
`test_index`. Returns the updated filesystem, the `images` and `masks`
lists appended in encounter order, the `kaggle_test_indeces` list, and
the number of `extract` calls performed. -/
def unzip_loop (root : String) (train : Bool) :
    List String → FS → Nat → Except DsError (FS × List String × List String × List Nat × Nat)
  | [], fs, _ => .ok (fs, [], [], [], 0)
  | m :: ms, fs, ctr =>
    if train then
      match member_train_image m with
      | .error e => .error e
      | .ok imFiles =>
        let fs1 := imFiles.foldl (fun a f => a.extract_to (folder_train root) f) fs
        match member_train_mask m with
        | .error e => .error e
        | .ok mkFiles =>
          let fs2 := mkFiles.foldl (fun a f => a.extract_to (folder_train root) f) fs1
          match unzip_loop root train ms fs2 ctr with
          | .error e => .error e
          | .ok (fs3, is, msk, ix, c) =>
            .ok (fs3, imFiles ++ is, mkFiles ++ msk, ix, imFiles.length + mkFiles.length + c)
    else
      if starts_with m kaggle_folder_test_images then
        match img_number_from_name m with
        | some n =>
          let fname := test_image_filename ctr
          let fs1 := fs.extract_to (folder_test root) fname
          match unzip_loop root train ms fs1 (ctr + 1) with
          | .error e => .error e
          | .ok (fs2, is, msk, ix, c) => .ok (fs2, fname :: is, msk, n :: ix, c + 1)
        | none => .error .parse
      else unzip_loop root train ms fs ctr

/-- Does a member fall under the role's recognized path prefixes
(the `startswith` tests of the `unzip` loop)? -/
def role_matches (train : Bool) (m : String) : Bool :=
  if train then
    starts_with m kaggle_folder_train_images || starts_with m kaggle_folder_train_masks
  else starts_with m kaggle_folder_test_images

/-- The canonical processed sub-folder for a role. -/
def role_folder (root : String) (train : Bool) : String :=
  if train then folder_train root else folder_test root

/-- `RSKaggleDataset.unzip`: runs the member loop and, for TEST role,
persists `kaggle_test_indeces` via `torch.save` into the test folder
(which fails if that folder was never created). -/
def unzip (root : String) (train : Bool) (members : List String) (fs : FS) :
    Except DsError (FS × List String × List String × List Nat × Nat) :=
  match unzip_loop root train members fs 0 with
  | .error e => .error e
  | .ok (fs1, is, msk, ix, c) =>
    if train then .ok (fs1, is, msk, ix, c)
    else
      if folder_test root ∈ fs1.dirs then
        .ok ({ fs1.insert (path_join (folder_test root) kaggle_file_test_indeces) with
                test_idx_file := some ix }, is, msk, ix, c)
      else .error .save

/-! ### `download`, `process`, `__init__`, `__getitem__` -/

/-- `RSKaggleDataset.download`. The Kaggle collaborator is the
parameter `dl`: on success it lands the archive (whose member list it
yields) in the raw folder, on failure it raises. The second component
counts collaborator invocations (network work). -/
def download (root : String) (train : Bool) (dl : Except String (List String)) (fs : FS) :
    Except DsError FS × Nat :=
  if check_exists root train fs then (.ok fs, 0)
  else
    let fs1 := (fs.insert (folder_raw root)).insert (folder_processed root)
    match dl with
    | .error e => (.error (.acquisition e), 1)
    | .ok members =>
      let fs2 := fs1.insert (path_join (folder_raw root) (kaggle_competition ++ ".zip"))
      match unzip root train members fs2 with
      | .error e => (.error e, 1)
      | .ok (fs3, _, _, _, _) => (.ok fs3, 1)

/-- The in-memory state the constructor builds. -/
structure DState where
  images : List String
  masks : List String
  kaggle_test_indeces : List Nat
deriving DecidableEq, Repr

/-- Python `sorted` on strings: the stable ascending reordering under
`str_le`. A stable sort's output is uniquely determined by the order,
so insertion sort (structural recursion, hence computable by kernel
reduction) is an exact model of CPython's stable mergesort output. -/
def py_sorted (l : List String) : List String :=
  l.insertionSort (fun a b => str_le a b = true)

/-- `RSKaggleDataset.process`: lists the role folder (the listing — the
file names in unspecified order — is the parameter), filters by the
`"image"` / `"mask"` substrings, joins with the folder, and sorts.
For TEST role it first loads the persisted index file. -/
def process (root : String) (train : Bool) (listing : List String) (fs : FS) :
    Except DsError DState :=
  if train then
    let images := (listing.filter (fun f => substr_in "image" f)).map
      (path_join (folder_train root))
    let masks := (listing.filter (fun f => substr_in "mask" f)).map
      (path_join (folder_train root))
    .ok ⟨py_sorted images, py_sorted masks, []⟩
  else
    match fs.test_idx_file with
    | none => .error .persistence
    | some ix =>
      let images := (listing.filter (fun f => substr_in "image" f)).map
        (path_join (folder_test root))
      .ok ⟨py_sorted images, py_sorted [], ix⟩

/-- `RSKaggleDataset.__init__`: optional download, existence check
(raising `RuntimeError` when the role folder is absent), then `process`.
The `Nat` component counts download-collaborator invocations. -/
def dataset_init (root : String) (train : Bool) (downloadFlag : Bool)
    (dl : Except String (List String)) (listing : List String) (fs : FS) :
    Except DsError DState × Nat :=
  let (r, c) := if downloadFlag then download root train dl fs else (.ok fs, 0)
  match r with
  | .error e => (.error e, c)
  | .ok fs' =>
    if check_exists root train fs' then
      match process root train listing fs' with
      | .error e => (.error e, c)
      | .ok st => (.ok st, c)
    else (.error (.notFound not_found_message), c)

/-- `if self.transforms is not None: image = self.transforms(image)`. -/
def apply_tf (tf : Option (String → String)) (p : String) : String :=
  match tf with
  | some f => f p
  | none => p

/-- The TEST branch of `RSKaggleDataset.__getitem__`: the loaded image
(modelled by its path, with the optional transform applied) paired with
`kaggle_test_indeces[index]`; `none` models the `IndexError` on an
out-of-range index. -/
def getitem_test (tf : Option (String → String)) (st : DState) (i : Nat) :
    Option (String × Nat) :=
  match st.images[i]? with
  | none => none
  | some p =>
    match st.kaggle_test_indeces[i]? with
    | none => none
    | some ix => some (apply_tf tf p, ix)

/-- `RSKaggleDataset.__len__`. -/
def dslen (st : DState) : Nat := st.images.length

/-! ### Lemmas about the lexicographic comparison -/

theorem charListLe_refl (l : List Char) : charListLe l l = true := by
  induction l with
  | nil => rfl
  | cons a as ih => simp [charListLe, ih]

theorem charListLe_total (a b : List Char) : charListLe a b = true ∨ charListLe b a = true := by
  induction a generalizing b with
  | nil => exact Or.inl rfl
  | cons x xs ih =>
    cases b with
    | nil => exact Or.inr rfl
    | cons y ys =>
      rcases lt_trichotomy x y with h | h | h
      · exact Or.inl (by simp [charListLe, h])
      · subst h
        rcases ih ys with h2 | h2
        · exact Or.inl (by simp [charListLe, h2])
        · exact Or.inr (by simp [charListLe, h2])
      · exact Or.inr (by simp [charListLe, h])

theorem charListLe_trans {a b c : List Char} (hab : charListLe a b = true)
    (hbc : charListLe b c = true) : charListLe a c = true := by
  induction a generalizing b c with
  | nil => rfl
  | cons x xs ih =>
    cases b with
    | nil => simp [charListLe] at hab
    | cons y ys =>
      cases c with
      | nil => simp [charListLe] at hbc
      | cons z zs =>
        rcases lt_trichotomy x y with h1 | h1 | h1
        · rcases lt_trichotomy y z with h2 | h2 | h2
          · simp [charListLe, h1.trans h2]
          · subst h2; simp [charListLe, h1]
          · simp [charListLe, h2, asymm h2] at hbc
        · subst h1
          rcases lt_trichotomy x z with h2 | h2 | h2
          · simp [charListLe, h2]
          · subst h2
            simp only [charListLe, lt_irrefl, if_neg (lt_irrefl x), if_false] at hab hbc ⊢
            exact ih hab hbc
          · simp [charListLe, h2, asymm h2] at hbc
        · simp [charListLe, h1, asymm h1] at hab

theorem charListLe_antisymm {a b : List Char} (hab : charListLe a b = true)
    (hba : charListLe b a = true) : a = b := by
  induction a generalizing b with
  | nil =>
    cases b with
    | nil => rfl
    | cons y ys => simp [charListLe] at hba
  | cons x xs ih =>
    cases b with
    | nil => simp [charListLe] at hab
    | cons y ys =>
      rcases lt_trichotomy x y with h | h | h
      · simp [charListLe, h, asymm h] at hba
      · subst h
        simp only [charListLe, lt_irrefl, if_neg (lt_irrefl x), if_false] at hab hba
        rw [ih hab hba]
      · simp [charListLe, h, asymm h] at hab

theorem charListLe_append_left (p a b : List Char) :
    charListLe (p ++ a) (p ++ b) = charListLe a b := by
  induction p with
  | nil => rfl
  | cons c cs ih => simp [charListLe, ih]

theorem charListLe_append_same_length {x y : List Char} (s : List Char)
    (h : x.length = y.length) : charListLe (x ++ s) (y ++ s) = charListLe x y := by
  induction x generalizing y with
  | nil =>
    cases y with
    | nil => simp [charListLe_refl, charListLe]
    | cons b bs => simp at h
  | cons a as ih =>
    cases y with
    | nil => simp at h
    | cons b bs =>
      simp only [List.length_cons, Nat.add_right_cancel_iff] at h
      rcases lt_trichotomy a b with h1 | h1 | h1
      · simp [charListLe, h1]
      · subst h1; simp [charListLe, ih h]
      · simp [charListLe, h1, asymm h1]

theorem charListLe_append_head {x y : List Char} (u v : List Char) {c : Char}
    (hxy : x ≠ y) (hcx : c ∉ x) (hcy : c ∉ y) :
    charListLe (x ++ c :: u) (y ++ c :: v) = charListLe (x ++ [c]) (y ++ [c]) := by
  induction x generalizing y with
  | nil =>
    cases y with
    | nil => exact absurd rfl hxy
    | cons b bs =>
      have hcb : c ≠ b := fun h => hcy (h ▸ List.mem_cons_self b bs)
      rcases lt_trichotomy c b with h1 | h1 | h1
      · simp [charListLe, h1]
      · exact absurd h1 hcb
      · simp [charListLe, h1, asymm h1]
  | cons a as ih =>
    cases y with
    | nil =>
      have hca : c ≠ a := fun h => hcx (h ▸ List.mem_cons_self a as)
      rcases lt_trichotomy a c with h1 | h1 | h1
      · simp [charListLe, h1]
      · exact absurd h1.symm hca
      · simp [charListLe, h1, asymm h1]
    | cons b bs =>
      rcases lt_trichotomy a b with h1 | h1 | h1
      · simp [charListLe, h1]
      · subst h1
        have hxy2 : as ≠ bs := fun h => hxy (h ▸ rfl)
        have hcx2 : c ∉ as := fun h => hcx (List.mem_cons_of_mem a h)
        have hcy2 : c ∉ bs := fun h => hcy (List.mem_cons_of_mem a h)
        simp [charListLe, ih hxy2 hcx2 hcy2]
      · simp [charListLe, h1, asymm h1]

/-! ### `str_le` as an order, and `mergeSort` bridge lemmas -/

theorem str_le_trans {a b c : String} (hab : str_le a b = true) (hbc : str_le b c = true) :
    str_le a c = true := charListLe_trans hab hbc

theorem str_le_trans3 (a b c : String) (hab : str_le a b = true)
    (hbc : str_le b c = true) : str_le a c = true := str_le_trans hab hbc

theorem str_le_total (a b : String) : (str_le a b || str_le b a) = true := by
  rcases charListLe_total a.data b.data with h | h
  · simp [str_le, h]
  · simp [str_le, h]

theorem str_le_antisymm {a b : String} (hab : str_le a b = true) (hba : str_le b a = true) :
    a = b := by
  cases a; cases b
  exact congrArg String.mk (charListLe_antisymm hab hba)

theorem str_rel_total : IsTotal String (fun a b => str_le a b = true) := by
  refine ⟨fun a b => ?_⟩
  have := str_le_total a b
  rcases Bool.or_eq_true_iff.mp this with h | h
  · exact Or.inl h
  · exact Or.inr h

theorem str_rel_trans : IsTrans String (fun a b => str_le a b = true) :=
  ⟨fun _ _ _ => str_le_trans⟩

theorem str_rel_antisymm : IsAntisymm String (fun a b => str_le a b = true) :=
  ⟨fun _ _ => str_le_antisymm⟩

/-- `sorted(...)` on Python strings is sorted under `str_le`. -/
theorem py_sorted_sorted (l : List String) :
    (py_sorted l).Pairwise (fun a b => str_le a b = true) := by
  haveI := str_rel_total
  haveI := str_rel_trans
  exact List.sorted_insertionSort _ l

theorem py_sorted_perm (l : List String) : List.Perm (py_sorted l) l :=
  List.perm_insertionSort _ l

/-- `sorted(...)` on Python strings is invariant under permutation of its
input (the input order coming from the unspecified `os.listdir` order). -/
theorem py_sorted_eq_of_perm {l l2 : List String} (h : List.Perm l l2) :
    py_sorted l = py_sorted l2 := by
  haveI := str_rel_antisymm
  exact List.eq_of_perm_of_sorted
    ((py_sorted_perm l).trans (h.trans (py_sorted_perm l2).symm))
    (py_sorted_sorted l) (py_sorted_sorted l2)

/-- Sorting the images of `f` under the string order is the image of
sorting under the induced key order. -/
theorem py_sorted_map_str {α : Type} (f : α → String) (rA : α → α → Prop)
    [DecidableRel rA] (hf : ∀ a b, (str_le (f a) (f b) = true) ↔ rA a b) (l : List α) :
    py_sorted (l.map f) = (l.insertionSort rA).map f := by
  haveI := str_rel_antisymm
  haveI : IsTotal α rA := by
    refine ⟨fun a b => ?_⟩
    rcases str_rel_total.total (f a) (f b) with h | h
    · exact Or.inl ((hf a b).mp h)
    · exact Or.inr ((hf b a).mp h)
  haveI : IsTrans α rA := by
    refine ⟨fun a b c h1 h2 => ?_⟩
    rw [← hf] at h1 h2 ⊢
    exact str_le_trans h1 h2
  have hperm : List.Perm (py_sorted (l.map f)) ((l.insertionSort rA).map f) :=
    (py_sorted_perm _).trans (((List.perm_insertionSort rA l).symm).map f)
  have hs2 : ((l.insertionSort rA).map f).Pairwise (fun a b => str_le a b = true) := by
    refine List.Pairwise.map f ?_ (List.sorted_insertionSort rA l)
    intro a b hab
    exact (hf a b).mpr hab
  exact List.eq_of_perm_of_sorted hperm (py_sorted_sorted _) hs2

/-- Key-level sorting is invariant under permutation, provided the keys
embed injectively and order-faithfully into strings. -/
theorem insertionSort_key_eq_of_perm {α : Type} (f : α → String) (rA : α → α → Prop)
    [DecidableRel rA] (hf : ∀ a b, (str_le (f a) (f b) = true) ↔ rA a b)
    (hinj : ∀ a b, f a = f b → a = b)
    {l l2 : List α} (h : List.Perm l l2) : l.insertionSort rA = l2.insertionSort rA := by
  haveI : IsAntisymm α rA := by
    refine ⟨fun a b h1 h2 => ?_⟩
    rw [← hf] at h1 h2
    exact hinj a b (str_le_antisymm h1 h2)
  haveI : IsTotal α rA := by
    refine ⟨fun a b => ?_⟩
    rcases str_rel_total.total (f a) (f b) with hh | hh
    · exact Or.inl ((hf a b).mp hh)
    · exact Or.inr ((hf b a).mp hh)
  haveI : IsTrans α rA := by
    refine ⟨fun a b c h1 h2 => ?_⟩
    rw [← hf] at h1 h2 ⊢
    exact str_le_trans h1 h2
  exact List.eq_of_perm_of_sorted
    ((List.perm_insertionSort rA l).trans (h.trans (List.perm_insertionSort rA l2).symm))
    (List.sorted_insertionSort rA l) (List.sorted_insertionSort rA l2)

/-! ### Lemmas about decimal rendering -/

theorem digit_char_isDigit : ∀ d, d < 10 → (digit_char d).isDigit = true := by decide

theorem digit_char_toNat : ∀ d, d < 10 → (digit_char d).toNat = 48 + d := by decide

theorem digit_char_lt_iff : ∀ x, x < 10 → ∀ y, y < 10 →
    ((digit_char x < digit_char y) ↔ x < y) := by decide

theorem natDigits_ne_nil (n : Nat) : natDigits n ≠ [] := by
  by_cases h : n < 10
  · rw [natDigits_lt10 h]
    simp
  · rw [natDigits_ge10 h]
    simp

theorem natDigits_all_digit (n : Nat) : ∀ c ∈ natDigits n, c.isDigit = true := by
  induction n using Nat.strong_induction_on with
  | _ n ih =>
    by_cases h : n < 10
    · rw [natDigits_lt10 h]
      intro c hc
      simp only [List.mem_singleton] at hc
      exact hc ▸ digit_char_isDigit n h
    · rw [natDigits_ge10 h]
      intro c hc
      rcases List.mem_append.mp hc with h1 | h1
      · exact ih (n / 10) (Nat.div_lt_self (by omega) (by omega)) c h1
      · simp only [List.mem_singleton] at h1
        exact h1 ▸ digit_char_isDigit (n % 10) (Nat.mod_lt n (by omega))

theorem charsToNat_append_singleton (xs : List Char) (c : Char) :
    charsToNat (xs ++ [c]) = 10 * charsToNat xs + (c.toNat - 48) := by
  simp [charsToNat, List.foldl_append]

theorem charsToNat_natDigits (n : Nat) : charsToNat (natDigits n) = n := by
  induction n using Nat.strong_induction_on with
  | _ n ih =>
    by_cases h : n < 10
    · rw [natDigits_lt10 h]
      simp [charsToNat, digit_char_toNat n h]
    · rw [natDigits_ge10 h]
      rw [charsToNat_append_singleton,
        ih (n / 10) (Nat.div_lt_self (by omega) (by omega)),
        digit_char_toNat (n % 10) (Nat.mod_lt n (by omega))]
      omega

theorem charsToNat_replicate_zero (k : Nat) (s : List Char) :
    charsToNat (List.replicate k '0' ++ s) = charsToNat s := by
  induction k with
  | zero => simp
  | succ k ih =>
    rw [List.replicate_succ, List.cons_append]
    exact ih

theorem charsToNat_padZeros (w : Nat) (n : Nat) :
    charsToNat (padZeros w (natDigits n)) = n := by
  rw [padZeros, charsToNat_replicate_zero, charsToNat_natDigits]

theorem three_digit_form {n : Nat} (h : n < 1000) :
    padZeros 3 (natDigits n) =
      [digit_char (n / 100), digit_char (n / 10 % 10), digit_char (n % 10)] := by
  rcases Nat.lt_or_ge n 10 with h1 | h1
  · rw [natDigits_lt10 h1]
    have e1 : n / 100 = 0 := by omega
    have e2 : n / 10 % 10 = 0 := by omega
    rw [e1, e2]
    show ['0', '0', digit_char n] = [digit_char 0, digit_char 0, digit_char (n % 10)]
    rw [Nat.mod_eq_of_lt h1]
    rfl
  · rcases Nat.lt_or_ge n 100 with h2 | h2
    · rw [natDigits_ge10 (by omega : ¬ n < 10), natDigits_lt10 (by omega : n / 10 < 10)]
      have e1 : n / 100 = 0 := by omega
      have e2 : n / 10 % 10 = n / 10 := Nat.mod_eq_of_lt (by omega)
      rw [e1, e2]
      rfl
    · rw [natDigits_ge10 (by omega : ¬ n < 10),
        natDigits_ge10 (by omega : ¬ n / 10 < 10),
        natDigits_lt10 (by omega : n / 10 / 10 < 10)]
      have e1 : n / 10 / 10 = n / 100 := by omega
      rw [e1]
      rfl

theorem format03_nat_chars {n : Nat} : ∀ c ∈ (format03_nat n).data, c.isDigit = true := by
  intro c hc
  simp only [format03_nat, padZeros] at hc
  rcases List.mem_append.mp hc with h1 | h1
  · rw [List.eq_of_mem_replicate h1]; rfl
  · exact natDigits_all_digit n c h1

theorem format03_int_chars {v : Int} :
    ∀ c ∈ (format03_int v).data, c = '-' ∨ c.isDigit = true := by
  intro c hc
  rw [format03_int] at hc
  split at hc
  · rcases List.mem_cons.mp hc with h1 | h1
    · exact Or.inl h1
    · refine Or.inr ?_
      simp only [padZeros] at h1
      rcases List.mem_append.mp h1 with h2 | h2
      · rw [List.eq_of_mem_replicate h2]; rfl
      · exact natDigits_all_digit _ c h2
  · exact Or.inr (format03_nat_chars c hc)

theorem format03_int_no_underscore {v : Int} : '_' ∉ (format03_int v).data := by
  intro h
  rcases format03_int_chars '_' h with h1 | h1
  · exact absurd h1 (by decide)
  · exact absurd h1 (by decide)

theorem format03_int_no_slash {v : Int} : '/' ∉ (format03_int v).data := by
  intro h
  rcases format03_int_chars '/' h with h1 | h1
  · exact absurd h1 (by decide)
  · exact absurd h1 (by decide)

theorem format03_int_has_digit (v : Int) :
    ∃ c ∈ (format03_int v).data, c.isDigit = true := by
  rw [format03_int]
  split
  · rcases List.exists_mem_of_ne_nil _ (natDigits_ne_nil v.natAbs) with ⟨c, hc⟩
    exact ⟨c, by simp [padZeros, hc], natDigits_all_digit _ c hc⟩
  · rcases List.exists_mem_of_ne_nil _ (natDigits_ne_nil v.toNat) with ⟨c, hc⟩
    exact ⟨c, by simp [format03_nat, padZeros, hc], natDigits_all_digit _ c hc⟩

/-- Recover the integer from its `%03d` rendering. -/
def format_val (l : List Char) : Int :=
  if l.head? = some '-' then -(charsToNat l.tail : Int) else (charsToNat l : Int)

theorem format_val_format03 (v : Int) : format_val (format03_int v).data = v := by
  rw [format03_int]
  split
  · next h =>
    show format_val ('-' :: padZeros 2 (natDigits v.natAbs)) = v
    have e : format_val ('-' :: padZeros 2 (natDigits v.natAbs))
        = -(charsToNat (padZeros 2 (natDigits v.natAbs)) : Int) := rfl
    rw [e, padZeros, charsToNat_replicate_zero, charsToNat_natDigits]
    omega
  · next h =>
    show format_val (padZeros 3 (natDigits v.toNat)) = v
    rw [format_val]
    have hne : padZeros 3 (natDigits v.toNat) ≠ [] := by
      simp [padZeros, natDigits_ne_nil]
    have hd : ∀ c, (padZeros 3 (natDigits v.toNat)).head? = some c → c ≠ '-' := by
      intro c hc h1
      have hmem : c ∈ padZeros 3 (natDigits v.toNat) := List.mem_of_mem_head? (hc ▸ rfl)
      simp only [padZeros] at hmem
      rcases List.mem_append.mp hmem with h2 | h2
      · rw [h1] at h2
        have := List.eq_of_mem_replicate h2
        exact absurd this (by decide)
      · have := natDigits_all_digit _ c h2
        rw [h1] at this
        exact absurd this (by decide)
    rw [if_neg ?_, charsToNat_padZeros]
    · omega
    · intro hcontra
      exact hd '-' hcontra rfl

theorem format03_int_injective {v w : Int} (h : format03_int v = format03_int w) : v = w := by
  have := congrArg (fun s => format_val s.data) h
  simpa [format_val_format03] using this

theorem format03_int_ofNat (k : Nat) : format03_int (k : Int) = format03_nat k := by
  rw [format03_int, if_neg (by omega)]
  simp

theorem format03_nat_length {n : Nat} (h : n < 1000) : (format03_nat n).length = 3 := by
  show (format03_nat n).data.length = 3
  simp [format03_nat, three_digit_form h]

theorem charListLe_format03_nat {a b : Nat} (ha : a < 1000) (hb : b < 1000) :
    (charListLe (padZeros 3 (natDigits a)) (padZeros 3 (natDigits b)) = true) ↔ a ≤ b := by
  rw [three_digit_form ha, three_digit_form hb]
  have d1 := digit_char_lt_iff (a / 100) (by omega) (b / 100) (by omega)
  have d2 := digit_char_lt_iff (b / 100) (by omega) (a / 100) (by omega)
  have d3 := digit_char_lt_iff (a / 10 % 10) (by omega) (b / 10 % 10) (by omega)
  have d4 := digit_char_lt_iff (b / 10 % 10) (by omega) (a / 10 % 10) (by omega)
  have d5 := digit_char_lt_iff (a % 10) (by omega) (b % 10) (by omega)
  have d6 := digit_char_lt_iff (b % 10) (by omega) (a % 10) (by omega)
  simp only [charListLe]
  split
  · next h1 => rw [d1] at h1; simp; omega
  · split
    · next h1 h2 =>
      rw [d1] at h1; rw [d2] at h2
      simp; omega
    · next h1 h2 =>
      rw [d1] at h1; rw [d2] at h2
      split
      · next h3 => rw [d3] at h3; simp; omega
      · split
        · next h3 h4 =>
          rw [d3] at h3; rw [d4] at h4
          simp; omega
        · next h3 h4 =>
          rw [d3] at h3; rw [d4] at h4
          split
          · next h5 => rw [d5] at h5; simp; omega
          · split
            · next h5 h6 =>
              rw [d5] at h5; rw [d6] at h6
              simp; omega
            · next h5 h6 =>
              rw [d5] at h5; rw [d6] at h6
              simp [charListLe]; omega

/-! ### Lemmas about digit-run parsing -/

theorem takeWhile_of_all {p : Char → Bool} {l : List Char} (h : ∀ c ∈ l, p c = true) :
    l.takeWhile p = l := by
  have h2 := @List.takeWhile_append_of_pos Char p l [] h
  simpa using h2

theorem takeWhile_append_eq_of_not_all {p : Char → Bool} {xs : List Char} (ys : List Char)
    (h : ¬ ∀ a ∈ xs, p a = true) : (xs ++ ys).takeWhile p = xs.takeWhile p := by
  induction xs with
  | nil => exact absurd (by simp) h
  | cons x xs ih =>
    by_cases hx : p x = true
    · rw [List.cons_append, List.takeWhile_cons, if_pos hx, List.takeWhile_cons, if_pos hx]
      have h2 : ¬ ∀ a ∈ xs, p a = true := by
        intro hcontra
        refine h (fun a ha => ?_)
        rcases List.mem_cons.mp ha with h1 | h1
        · exact h1 ▸ hx
        · exact hcontra a h1
      rw [ih h2]
    · rw [List.cons_append, List.takeWhile_cons, if_neg hx, List.takeWhile_cons, if_neg hx]

theorem firstDigitRun_append {x : List Char} (s : List Char)
    (hx : ∃ c ∈ x, c.isDigit = true)
    (hs : ∀ c, s.head? = some c → c.isDigit = false) :
    firstDigitRun (x ++ s) = firstDigitRun x := by
  induction x with
  | nil => simp at hx
  | cons c cs ih =>
    by_cases hc : c.isDigit = true
    · rw [List.cons_append, firstDigitRun, if_pos hc, firstDigitRun, if_pos hc]
      by_cases hall : ∀ a ∈ cs, Char.isDigit a = true
      · have hts : s.takeWhile Char.isDigit = [] := by
          cases s with
          | nil => rfl
          | cons c0 s0 =>
            have := hs c0 rfl
            simp [List.takeWhile_cons, this]
        rw [List.takeWhile_append_of_pos hall, hts, List.append_nil,
          takeWhile_of_all hall]
      · rw [takeWhile_append_eq_of_not_all s hall]
    · rw [List.cons_append, firstDigitRun, if_neg hc, firstDigitRun, if_neg hc]
      refine ih ?_
      rcases hx with ⟨c0, hc0, hd0⟩
      rcases List.mem_cons.mp hc0 with h1 | h1
      · exact absurd (h1 ▸ hd0) hc
      · exact ⟨c0, h1, hd0⟩

theorem firstDigitRun_of_all {l : List Char} (hne : l ≠ [])
    (hall : ∀ c ∈ l, c.isDigit = true) : firstDigitRun l = some l := by
  cases l with
  | nil => exact absurd rfl hne
  | cons c cs =>
    rw [firstDigitRun, if_pos (hall c (List.mem_cons_self c cs))]
    rw [takeWhile_of_all (fun d hd => hall d (List.mem_cons_of_mem c hd))]

theorem img_number_append_suffix (x : List Char) (s : String)
    (hx : ∃ c ∈ x, c.isDigit = true)
    (hs : ∀ c, s.data.head? = some c → c.isDigit = false) :
    img_number_from_name (⟨x⟩ ++ s) = (firstDigitRun x).map charsToNat := by
  rw [img_number_from_name, String.data_append]
  rw [firstDigitRun_append s.data hx hs]

theorem format03_int_head_digits (v : Int) :
    ∃ c ∈ (format03_int v).data, c.isDigit = true := format03_int_has_digit v

theorem underscore_suffix_img :
    ∀ c, ("_image.png" : String).data.head? = some c → c.isDigit = false := by
  intro c hc
  have he : ("_image.png" : String).data = ['_', 'i', 'm', 'a', 'g', 'e', '.', 'p', 'n', 'g'] := rfl
  rw [he] at hc
  simp only [List.head?_cons, Option.some.injEq] at hc
  rw [← hc]
  rfl

theorem underscore_suffix_mask :
    ∀ c, ("_mask.png" : String).data.head? = some c → c.isDigit = false := by
  intro c hc
  have he : ("_mask.png" : String).data = ['_', 'm', 'a', 's', 'k', '.', 'p', 'n', 'g'] := rfl
  rw [he] at hc
  simp only [List.head?_cons, Option.some.injEq] at hc
  rw [← hc]
  rfl

/-- Appending a role suffix does not change the parsed key: the digit
run is that of the `%03d` field. -/
theorem img_number_format03_suffix (v : Int) (s : String)
    (hs : ∀ c, s.data.head? = some c → c.isDigit = false) :
    img_number_from_name (format03_int v ++ s)
      = (firstDigitRun (format03_int v).data).map charsToNat := by
  have := img_number_append_suffix (format03_int v).data s (format03_int_has_digit v) hs
  simpa using this

theorem img_number_format03_nat (k : Nat) (s : String)
    (hs : ∀ c, s.data.head? = some c → c.isDigit = false) :
    img_number_from_name (format03_nat k ++ s) = some k := by
  have h1 := img_number_append_suffix (format03_nat k).data s
    (by
      rcases List.exists_mem_of_ne_nil _ (natDigits_ne_nil k) with ⟨c, hc⟩
      exact ⟨c, by simp [format03_nat, padZeros, hc], natDigits_all_digit _ c hc⟩) hs
  have h2 : firstDigitRun (format03_nat k).data = some (format03_nat k).data := by
    refine firstDigitRun_of_all ?_ format03_nat_chars
    simp [format03_nat, padZeros, natDigits_ne_nil]
  have h3 : (⟨(format03_nat k).data⟩ : String) = format03_nat k := rfl
  rw [h3] at h1
  rw [h1, h2]
  show some (charsToNat (padZeros 3 (natDigits k))) = some k
  rw [charsToNat_padZeros]

/-! ### Lemmas about substring containment -/

theorem list_starts_subset {p s : List Char} (h : list_starts p s = true) :
    ∀ c ∈ p, c ∈ s := by
  induction p generalizing s with
  | nil => simp
  | cons a as ih =>
    cases s with
    | nil => simp [list_starts] at h
    | cons b bs =>
      simp only [list_starts, Bool.and_eq_true, beq_iff_eq] at h
      intro c hc
      rcases List.mem_cons.mp hc with h1 | h1
      · exact h1 ▸ h.1 ▸ List.mem_cons_self b bs
      · exact List.mem_cons_of_mem b (ih h.2 c h1)

theorem substr_in_list_subset {p s : List Char} (h : substr_in_list p s = true) :
    ∀ c ∈ p, c ∈ s := by
  induction s with
  | nil =>
    rw [substr_in_list] at h
    intro c hc
    exact absurd hc (by simpa using list_starts_subset h c hc)
  | cons b bs ih =>
    rw [substr_in_list, Bool.or_eq_true] at h
    intro c hc
    rcases h with h1 | h1
    · exact list_starts_subset h1 c hc
    · exact List.mem_cons_of_mem b (ih h1 c hc)

theorem substr_in_list_append_left {p s : List Char} (x : List Char)
    (h : substr_in_list p s = true) : substr_in_list p (x ++ s) = true := by
  induction x with
  | nil => exact h
  | cons c cs ih =>
    rw [List.cons_append, substr_in_list, Bool.or_eq_true]
    exact Or.inr ih

theorem substr_image_in_image_name (v : Int) :
    substr_in "image" (format03_int v ++ "_image.png") = true := by
  show substr_in_list _ ((format03_int v).data ++ _) = true
  refine substr_in_list_append_left _ ?_
  decide

theorem substr_image_in_test_name (k : Nat) :
    substr_in "image" (format03_nat k ++ "_image.png") = true := by
  show substr_in_list _ ((format03_nat k).data ++ _) = true
  refine substr_in_list_append_left _ ?_
  decide

theorem substr_mask_in_mask_name (v : Int) :
    substr_in "mask" (format03_int v ++ "_mask.png") = true := by
  show substr_in_list _ ((format03_int v).data ++ _) = true
  refine substr_in_list_append_left _ ?_
  decide

theorem substr_image_not_in_mask_name (v : Int) :
    substr_in "image" (format03_int v ++ "_mask.png") = false := by
  by_contra hc
  have h : substr_in "image" (format03_int v ++ "_mask.png") = true := by
    revert hc
    cases substr_in "image" (format03_int v ++ "_mask.png") <;> simp
  have hi : 'i' ∈ ((format03_int v).data ++ ("_mask.png" : String).data) := by
    have := substr_in_list_subset h 'i' (by decide)
    simpa using this
  rcases List.mem_append.mp hi with h1 | h1
  · rcases format03_int_chars 'i' h1 with h2 | h2
    · exact absurd h2 (by decide)
    · exact absurd h2 (by decide)
  · exact absurd h1 (by decide)

theorem substr_mask_not_in_image_name (v : Int) :
    substr_in "mask" (format03_int v ++ "_image.png") = false := by
  by_contra hc
  have h : substr_in "mask" (format03_int v ++ "_image.png") = true := by
    revert hc
    cases substr_in "mask" (format03_int v ++ "_image.png") <;> simp
  have hi : 's' ∈ ((format03_int v).data ++ ("_image.png" : String).data) := by
    have := substr_in_list_subset h 's' (by decide)
    simpa using this
  rcases List.mem_append.mp hi with h1 | h1
  · rcases format03_int_chars 's' h1 with h2 | h2
    · exact absurd h2 (by decide)
    · exact absurd h2 (by decide)
  · exact absurd h1 (by decide)

theorem substr_image_not_in_indeces_file :
    substr_in "image" kaggle_file_test_indeces = false := by decide

/-! ### Lemmas about paths -/

theorem string_eta (s : String) : (⟨s.data⟩ : String) = s := rfl

theorem base_name_of_no_slash {nm : String} (h : '/' ∉ nm.data) : base_name nm = nm := by
  rw [base_name]
  rw [takeWhile_of_all (by
    intro c hc
    have : c ∈ nm.data := List.mem_reverse.mp hc
    simp only [decide_eq_true_eq, ne_eq]
    intro hcontra
    exact h (hcontra ▸ this))]
  rw [List.reverse_reverse]

theorem base_name_slash_append {u v : List Char} (hu : u.getLast? = some '/')
    (hv : '/' ∉ v) : base_name ⟨u ++ v⟩ = ⟨v⟩ := by
  show (⟨((u ++ v).reverse.takeWhile (fun c => decide (c ≠ '/'))).reverse⟩ : String) = _
  rw [List.reverse_append]
  rw [List.takeWhile_append_of_pos (fun c hc => by
    have hcv : c ∈ v := List.mem_reverse.mp hc
    have hne : c ≠ '/' := fun hcontra => hv (hcontra ▸ hcv)
    exact decide_eq_true hne)]
  have hrev : u.reverse.takeWhile (fun c => decide (c ≠ '/')) = [] := by
    cases hh : u.reverse with
    | nil => rfl
    | cons c0 cs0 =>
      have hhd : u.reverse.head? = some '/' := by rw [List.head?_reverse]; exact hu
      rw [hh] at hhd
      simp only [List.head?_cons, Option.some.injEq] at hhd
      simp [List.takeWhile_cons, hhd]
  rw [hrev, List.append_nil, List.reverse_reverse]

theorem base_name_path_join (d : String) {nm : String} (h : '/' ∉ nm.data) :
    base_name (path_join d nm) = nm := by
  rw [path_join]
  split
  · exact base_name_of_no_slash h
  · split
    · exact base_name_of_no_slash h
    · next hd2 =>
      split
      · next hd3 =>
        calc base_name (d ++ nm) = base_name ⟨d.data ++ nm.data⟩ := rfl
          _ = ⟨nm.data⟩ := base_name_slash_append hd3 h
          _ = nm := string_eta nm
      · next hd3 =>
        have hlast : (d.data ++ ['/']).getLast? = some '/' := List.getLast?_concat _
        calc base_name (d ++ "/" ++ nm)
            = base_name ⟨(d.data ++ ['/']) ++ nm.data⟩ := by
              have e : (d ++ "/" ++ nm).data = (d.data ++ ['/']) ++ nm.data := by
                rw [String.data_append, String.data_append]
              rw [← string_eta (d ++ "/" ++ nm), e]
          _ = ⟨nm.data⟩ := base_name_slash_append hlast h
          _ = nm := string_eta nm

theorem str_le_path_join (d : String) {a b : String}
    (ha : a.data.head? ≠ some '/') (hb : b.data.head? ≠ some '/') :
    str_le (path_join d a) (path_join d b) = charListLe a.data b.data := by
  rw [path_join, path_join, if_neg ha, if_neg hb]
  split
  · rfl
  · split
    · show charListLe (d.data ++ a.data) (d.data ++ b.data) = _
      exact charListLe_append_left d.data a.data b.data
    · show charListLe ((d ++ "/").data ++ a.data) ((d ++ "/").data ++ b.data) = _
      exact charListLe_append_left (d ++ "/").data a.data b.data

theorem path_join_inj (d : String) {a b : String}
    (ha : a.data.head? ≠ some '/') (hb : b.data.head? ≠ some '/')
    (h : path_join d a = path_join d b) : a = b := by
  rw [path_join, path_join, if_neg ha, if_neg hb] at h
  have hdata := congrArg String.data h
  revert hdata
  split
  · intro hdata
    cases a; cases b
    exact congrArg String.mk hdata
  · split
    · intro hdata
      rw [String.data_append, String.data_append] at hdata
      have := List.append_cancel_left hdata
      cases a; cases b
      exact congrArg String.mk this
    · intro hdata
      rw [String.data_append, String.data_append] at hdata
      have := List.append_cancel_left hdata
      cases a; cases b
      exact congrArg String.mk this

theorem path_join_getLast (a : String) {b : String} (hb : b.data ≠ []) :
    (path_join a b).data.getLast? = b.data.getLast? := by
  rw [path_join]
  split
  · rfl
  · split
    · rfl
    · split
      · rw [String.data_append, List.getLast?_append]
        cases hh : b.data.getLast? with
        | none => exact absurd (List.getLast?_eq_none_iff.mp hh) hb
        | some c => rfl
      · rw [String.data_append, List.getLast?_append]
        cases hh : b.data.getLast? with
        | none => exact absurd (List.getLast?_eq_none_iff.mp hh) hb
        | some c => rfl

/-! ### Lemmas about the filesystem model and the `unzip` loop -/

theorem FS.mem_insert {fs : FS} {p q : String} :
    p ∈ (fs.insert q).dirs ↔ p = q ∨ p ∈ fs.dirs := by
  rw [FS.insert]
  split
  · next hq =>
    constructor
    · exact Or.inr
    · intro h
      rcases h with h | h
      · exact h ▸ hq
      · exact h
  · exact List.mem_cons

theorem FS.insert_idx {fs : FS} {q : String} :
    (fs.insert q).test_idx_file = fs.test_idx_file := by
  rw [FS.insert]
  split <;> rfl

theorem FS.mem_extract_to {fs : FS} {p fol f : String} :
    p ∈ (fs.extract_to fol f).dirs ↔ p = fol ∨ p = path_join fol f ∨ p ∈ fs.dirs := by
  rw [FS.extract_to, FS.mem_insert, FS.mem_insert]
  tauto

theorem FS.extract_to_idx {fs : FS} {fol f : String} :
    (fs.extract_to fol f).test_idx_file = fs.test_idx_file := by
  rw [FS.extract_to, FS.insert_idx, FS.insert_idx]

theorem fold_extract_mono (fol : String) (L : List String) (fs : FS) :
    (∀ p, p ∈ fs.dirs → p ∈ (L.foldl (fun a f => a.extract_to fol f) fs).dirs)
      ∧ (L.foldl (fun a f => a.extract_to fol f) fs).test_idx_file = fs.test_idx_file := by
  induction L generalizing fs with
  | nil => exact ⟨fun p hp => hp, rfl⟩
  | cons x xs ih =>
    rw [List.foldl_cons]
    refine ⟨fun p hp => ?_, ?_⟩
    · exact (ih (fs.extract_to fol x)).1 p (FS.mem_extract_to.mpr (Or.inr (Or.inr hp)))
    · rw [(ih (fs.extract_to fol x)).2, FS.extract_to_idx]

theorem fold_extract_folder_mem (fol : String) {L : List String} (hL : L ≠ []) (fs : FS) :
    fol ∈ (L.foldl (fun a f => a.extract_to fol f) fs).dirs := by
  cases L with
  | nil => exact absurd rfl hL
  | cons x xs =>
    rw [List.foldl_cons]
    exact (fold_extract_mono fol xs _).1 fol
      (FS.mem_extract_to.mpr (Or.inl rfl))

theorem unzip_loop_mono {root : String} {train : Bool} {ms : List String} {fs : FS}
    {ctr : Nat} {fs2 : FS} {im mk : List String} {ix : List Nat} {c : Nat}
    (h : unzip_loop root train ms fs ctr = .ok (fs2, im, mk, ix, c)) :
    (∀ p, p ∈ fs.dirs → p ∈ fs2.dirs) ∧ fs2.test_idx_file = fs.test_idx_file := by
  induction ms generalizing fs ctr fs2 im mk ix c with
  | nil =>
    rw [unzip_loop] at h
    simp only [Except.ok.injEq, Prod.mk.injEq] at h
    obtain ⟨h1, -, -, -, -⟩ := h
    subst h1
    exact ⟨fun p hp => hp, rfl⟩
  | cons m ms ih =>
    rw [unzip_loop] at h
    by_cases htr : train = true
    · rw [if_pos htr] at h
      cases hA : member_train_image m with
      | error e => rw [hA] at h; simp at h
      | ok imF =>
        rw [hA] at h
        cases hB : member_train_mask m with
        | error e => rw [hB] at h; simp at h
        | ok mkF =>
          rw [hB] at h
          simp only at h
          cases hrec : unzip_loop root train ms
              (mkF.foldl (fun a f => a.extract_to (folder_train root) f)
                (imF.foldl (fun a f => a.extract_to (folder_train root) f) fs)) ctr with
          | error e => rw [hrec] at h; simp at h
          | ok r =>
            obtain ⟨fs3, is3, mk3, ix3, c3⟩ := r
            rw [hrec] at h
            simp only [Except.ok.injEq, Prod.mk.injEq] at h
            obtain ⟨h1, -, -, -, -⟩ := h
            subst h1
            have hmono := ih hrec
            refine ⟨fun p hp => ?_, ?_⟩
            · refine hmono.1 p ?_
              refine (fold_extract_mono (folder_train root) mkF _).1 p ?_
              exact (fold_extract_mono (folder_train root) imF fs).1 p hp
            · rw [hmono.2, (fold_extract_mono (folder_train root) mkF _).2,
                (fold_extract_mono (folder_train root) imF fs).2]
    · rw [if_neg htr] at h
      by_cases hm : starts_with m kaggle_folder_test_images = true
      · rw [if_pos hm] at h
        cases hp : img_number_from_name m with
        | none => rw [hp] at h; simp at h
        | some n =>
          rw [hp] at h
          simp only at h
          cases hrec : unzip_loop root train ms
              (fs.extract_to (folder_test root) (test_image_filename ctr)) (ctr + 1) with
          | error e => rw [hrec] at h; simp at h
          | ok r =>
            obtain ⟨fs3, is3, mk3, ix3, c3⟩ := r
            rw [hrec] at h
            simp only [Except.ok.injEq, Prod.mk.injEq] at h
            obtain ⟨h1, -, -, -, -⟩ := h
            subst h1
            have hmono := ih hrec
            refine ⟨fun p hp2 => ?_, ?_⟩
            · exact hmono.1 p (FS.mem_extract_to.mpr (Or.inr (Or.inr hp2)))
            · rw [hmono.2, FS.extract_to_idx]
      · rw [if_neg hm] at h
        exact ih h

/-! ### Inversion lemmas for member processing -/

theorem member_train_image_spec_match {m : String} {n : Nat}
    (hm : starts_with m kaggle_folder_train_images = true)
    (hp : img_number_from_name m = some n) :
    member_train_image m = .ok [train_image_filename n] := by
  rw [member_train_image, if_pos hm, hp]

theorem member_train_image_spec_miss {m : String}
    (hm : ¬ starts_with m kaggle_folder_train_images = true) :
    member_train_image m = .ok [] := by
  rw [member_train_image, if_neg hm]

theorem member_train_mask_spec_match {m : String} {n : Nat}
    (hm : starts_with m kaggle_folder_train_masks = true)
    (hp : img_number_from_name m = some n) :
    member_train_mask m = .ok [train_mask_filename n] := by
  rw [member_train_mask, if_pos hm, hp]

theorem member_train_mask_spec_miss {m : String}
    (hm : ¬ starts_with m kaggle_folder_train_masks = true) :
    member_train_mask m = .ok [] := by
  rw [member_train_mask, if_neg hm]

theorem member_train_image_err {m : String} {e : DsError}
    (h : member_train_image m = .error e) :
    e = .parse ∧ starts_with m kaggle_folder_train_images = true
      ∧ img_number_from_name m = none := by
  by_cases hm : starts_with m kaggle_folder_train_images = true
  · rw [member_train_image, if_pos hm] at h
    cases hp : img_number_from_name m with
    | some n => rw [hp] at h; simp at h
    | none =>
      rw [hp] at h
      simp only [Except.error.injEq] at h
      exact ⟨h.symm, hm, rfl⟩
  · rw [member_train_image_spec_miss hm] at h
    simp at h

theorem member_train_mask_err {m : String} {e : DsError}
    (h : member_train_mask m = .error e) :
    e = .parse ∧ starts_with m kaggle_folder_train_masks = true
      ∧ img_number_from_name m = none := by
  by_cases hm : starts_with m kaggle_folder_train_masks = true
  · rw [member_train_mask, if_pos hm] at h
    cases hp : img_number_from_name m with
    | some n => rw [hp] at h; simp at h
    | none =>
      rw [hp] at h
      simp only [Except.error.injEq] at h
      exact ⟨h.symm, hm, rfl⟩
  · rw [member_train_mask_spec_miss hm] at h
    simp at h

/-! ### Mutually exclusive folder prefixes -/

theorem list_starts_comparable {p q s : List Char} (hp : list_starts p s = true)
    (hq : list_starts q s = true) :
    list_starts p q = true ∨ list_starts q p = true := by
  induction p generalizing q s with
  | nil => exact Or.inl rfl
  | cons a as ih =>
    cases q with
    | nil => exact Or.inr rfl
    | cons b bs =>
      cases s with
      | nil => simp [list_starts] at hp
      | cons c cs =>
        simp only [list_starts, Bool.and_eq_true, beq_iff_eq] at hp hq
        rcases ih hp.2 hq.2 with h1 | h1
        · refine Or.inl ?_
          simp [list_starts, hp.1, hq.1, h1]
        · refine Or.inr ?_
          simp [list_starts, hp.1, hq.1, h1]

theorem not_mask_of_image {m : String}
    (h1 : starts_with m kaggle_folder_train_images = true) :
    ¬ starts_with m kaggle_folder_train_masks = true := by
  intro h2
  rcases list_starts_comparable h1 h2 with h3 | h3
  · exact absurd h3 (by decide)
  · exact absurd h3 (by decide)

theorem not_image_of_mask {m : String}
    (h1 : starts_with m kaggle_folder_train_masks = true) :
    ¬ starts_with m kaggle_folder_train_images = true := by
  intro h2
  rcases list_starts_comparable h1 h2 with h3 | h3
  · exact absurd h3 (by decide)
  · exact absurd h3 (by decide)

/-! ### Behaviour of the `unzip` loop -/

/-- When no member matches the role, the loop extracts nothing and
leaves the filesystem untouched. -/
theorem unzip_loop_no_match {root : String} {train : Bool} {ms : List String}
    (fs : FS) (ctr : Nat) (h : ∀ m ∈ ms, role_matches train m = false) :
    unzip_loop root train ms fs ctr = .ok (fs, [], [], [], 0) := by
  induction ms generalizing fs ctr with
  | nil => rw [unzip_loop]
  | cons m ms ih =>
    have hm := h m (List.mem_cons_self m ms)
    have hrest : ∀ x ∈ ms, role_matches train x = false :=
      fun x hx => h x (List.mem_cons_of_mem m hx)
    rw [unzip_loop]
    by_cases htr : train = true
    · subst htr
      rw [role_matches, if_pos rfl, Bool.or_eq_false_iff] at hm
      rw [if_pos rfl, member_train_image_spec_miss (by simp [hm.1]),
        member_train_mask_spec_miss (by simp [hm.2])]
      simp only [List.foldl_nil]
      rw [ih fs ctr hrest]
      simp
    · have htr2 : train = false := by
        revert htr
        cases train <;> simp
      subst htr2
      rw [role_matches, if_neg Bool.false_ne_true] at hm
      rw [if_neg Bool.false_ne_true, if_neg (by simp [hm])]
      exact ih fs ctr hrest

/-- The TEST loop on an archive whose matching members parse to `ns`:
filenames are the counter values in encounter order, the index list is
`ns` in encounter order. -/
theorem unzip_loop_test_spec {root : String} {ms : List String} {ns : List Nat}
    (fs : FS) (ctr : Nat)
    (h : (ms.filter (fun m => starts_with m kaggle_folder_test_images)).mapM
        img_number_from_name = some ns) :
    ∃ fs2, unzip_loop root false ms fs ctr
      = .ok (fs2, (List.range' ctr ns.length).map test_image_filename, [], ns, ns.length) := by
  induction ms generalizing fs ctr ns with
  | nil =>
    simp only [List.filter_nil, List.mapM_nil, pure, Option.some.injEq] at h
    subst h
    exact ⟨fs, by rw [unzip_loop]; rfl⟩
  | cons m ms ih =>
    by_cases hm : starts_with m kaggle_folder_test_images = true
    · rw [List.filter_cons] at h
      rw [if_pos hm] at h
      cases hp : img_number_from_name m with
      | none => rw [List.mapM_cons, hp] at h; simp at h
      | some n =>
        cases hrest : (ms.filter (fun m => starts_with m kaggle_folder_test_images)).mapM
            img_number_from_name with
        | none => rw [List.mapM_cons, hp, hrest] at h; simp at h
        | some ns2 =>
          rw [List.mapM_cons, hp, hrest] at h
          simp only [Option.pure_def, Option.bind_eq_bind, Option.some_bind,
            Option.some.injEq] at h
          subst h
          obtain ⟨fs2, hrec⟩ :=
            ih (fs.extract_to (folder_test root) (test_image_filename ctr)) (ctr + 1) hrest
          refine ⟨fs2, ?_⟩
          rw [unzip_loop]
          simp only [if_neg Bool.false_ne_true, if_pos hm, hp, hrec]
          simp [List.range'_succ]
    · rw [List.filter_cons] at h
      rw [if_neg hm] at h
      obtain ⟨fs2, hrec⟩ := ih fs ctr h
      refine ⟨fs2, ?_⟩
      rw [unzip_loop]
      simp only [if_neg Bool.false_ne_true, if_neg hm, hrec]

/-- The TRAIN loop: images are the canonical files for the numbers of
the image members in encounter order, and likewise for masks. -/
theorem unzip_loop_train_spec {root : String} {ms : List String} {nsI nsM : List Nat}
    (fs : FS) (ctr : Nat)
    (hI : (ms.filter (fun m => starts_with m kaggle_folder_train_images)).mapM
        img_number_from_name = some nsI)
    (hM : (ms.filter (fun m => starts_with m kaggle_folder_train_masks)).mapM
        img_number_from_name = some nsM) :
    ∃ fs2, unzip_loop root true ms fs ctr
      = .ok (fs2, nsI.map train_image_filename, nsM.map train_mask_filename, [],
          nsI.length + nsM.length) := by
  induction ms generalizing fs ctr nsI nsM with
  | nil =>
    simp only [List.filter_nil, List.mapM_nil, pure, Option.some.injEq] at hI hM
    subst hI
    subst hM
    exact ⟨fs, by rw [unzip_loop]; rfl⟩
  | cons m ms ih =>
    by_cases hmi : starts_with m kaggle_folder_train_images = true
    · have hmm := not_mask_of_image hmi
      rw [List.filter_cons, if_pos hmi] at hI
      rw [List.filter_cons, if_neg hmm] at hM
      cases hp : img_number_from_name m with
      | none => rw [List.mapM_cons, hp] at hI; simp at hI
      | some n =>
        cases hrest : (ms.filter (fun m => starts_with m kaggle_folder_train_images)).mapM
            img_number_from_name with
        | none => rw [List.mapM_cons, hp, hrest] at hI; simp at hI
        | some ns2 =>
          rw [List.mapM_cons, hp, hrest] at hI
          simp only [Option.pure_def, Option.bind_eq_bind, Option.some_bind,
            Option.some.injEq] at hI
          subst hI
          obtain ⟨fs2, hrec⟩ :=
            ih (fs.extract_to (folder_train root) (train_image_filename n)) ctr hrest hM
          refine ⟨fs2, ?_⟩
          rw [unzip_loop]
          simp only [if_pos rfl, member_train_image_spec_match hmi hp,
            member_train_mask_spec_miss hmm, List.foldl_cons, List.foldl_nil, hrec]
          simp
          omega
    · by_cases hmk : starts_with m kaggle_folder_train_masks = true
      · rw [List.filter_cons, if_neg hmi] at hI
        rw [List.filter_cons, if_pos hmk] at hM
        cases hp : img_number_from_name m with
        | none => rw [List.mapM_cons, hp] at hM; simp at hM
        | some n =>
          cases hrest : (ms.filter (fun m => starts_with m kaggle_folder_train_masks)).mapM
              img_number_from_name with
          | none => rw [List.mapM_cons, hp, hrest] at hM; simp at hM
          | some ns2 =>
            rw [List.mapM_cons, hp, hrest] at hM
            simp only [Option.pure_def, Option.bind_eq_bind, Option.some_bind,
              Option.some.injEq] at hM
            subst hM
            obtain ⟨fs2, hrec⟩ :=
              ih (fs.extract_to (folder_train root) (train_mask_filename n)) ctr hI hrest
            refine ⟨fs2, ?_⟩
            rw [unzip_loop]
            simp only [if_pos rfl, member_train_image_spec_miss hmi,
              member_train_mask_spec_match hmk hp, List.foldl_cons, List.foldl_nil, hrec]
            simp
            omega
      · rw [List.filter_cons, if_neg hmi] at hI
        rw [List.filter_cons, if_neg hmk] at hM
        obtain ⟨fs2, hrec⟩ := ih fs ctr hI hM
        refine ⟨fs2, ?_⟩
        rw [unzip_loop]
        simp only [if_pos rfl, member_train_image_spec_miss hmi,
          member_train_mask_spec_miss hmk, List.foldl_nil, hrec]
        simp

theorem member_train_image_ok_of_starts {m : String} {L : List String}
    (hs : starts_with m kaggle_folder_train_images = true)
    (h : member_train_image m = .ok L) : L ≠ [] := by
  rw [member_train_image, if_pos hs] at h
  cases hp : img_number_from_name m with
  | none => rw [hp] at h; simp at h
  | some n =>
    rw [hp] at h
    simp only [Except.ok.injEq] at h
    rw [← h]
    simp

theorem member_train_mask_ok_of_starts {m : String} {L : List String}
    (hs : starts_with m kaggle_folder_train_masks = true)
    (h : member_train_mask m = .ok L) : L ≠ [] := by
  rw [member_train_mask, if_pos hs] at h
  cases hp : img_number_from_name m with
  | none => rw [hp] at h; simp at h
  | some n =>
    rw [hp] at h
    simp only [Except.ok.injEq] at h
    rw [← h]
    simp

/-- If some member matches the role and the loop succeeds, then the
role folder was created by an `extract` call. -/
theorem unzip_loop_match_creates {root : String} {train : Bool} {ms : List String} {fs : FS}
    {ctr : Nat} {fs2 : FS} {im mk : List String} {ix : List Nat} {c : Nat}
    (h : unzip_loop root train ms fs ctr = .ok (fs2, im, mk, ix, c))
    (hm : ∃ m ∈ ms, role_matches train m = true) :
    role_folder root train ∈ fs2.dirs := by
  induction ms generalizing fs ctr fs2 im mk ix c with
  | nil => obtain ⟨m, hmem, -⟩ := hm; simp at hmem
  | cons m0 ms ih =>
    rw [unzip_loop] at h
    by_cases htr : train = true
    · subst htr
      rw [if_pos rfl] at h
      cases hA : member_train_image m0 with
      | error e => rw [hA] at h; simp at h
      | ok imF =>
        rw [hA] at h
        cases hB : member_train_mask m0 with
        | error e => rw [hB] at h; simp at h
        | ok mkF =>
          rw [hB] at h
          simp only at h
          cases hrec : unzip_loop root true ms
              (mkF.foldl (fun a f => a.extract_to (folder_train root) f)
                (imF.foldl (fun a f => a.extract_to (folder_train root) f) fs)) ctr with
          | error e => rw [hrec] at h; simp at h
          | ok r =>
            obtain ⟨fs3, is3, mk3, ix3, c3⟩ := r
            rw [hrec] at h
            simp only [Except.ok.injEq, Prod.mk.injEq] at h
            obtain ⟨h1, -, -, -, -⟩ := h
            subst h1
            show folder_train root ∈ fs3.dirs
            obtain ⟨m, hmem, hrole⟩ := hm
            rcases List.mem_cons.mp hmem with h1 | h1
            · subst h1
              rw [role_matches, if_pos rfl, Bool.or_eq_true] at hrole
              rcases hrole with hs | hs
              · have hne := member_train_image_ok_of_starts hs hA
                refine (unzip_loop_mono hrec).1 _ ?_
                refine (fold_extract_mono (folder_train root) mkF _).1 _ ?_
                exact fold_extract_folder_mem (folder_train root) hne fs
              · have hne := member_train_mask_ok_of_starts hs hB
                refine (unzip_loop_mono hrec).1 _ ?_
                exact fold_extract_folder_mem (folder_train root) hne _
            · exact ih hrec ⟨m, h1, hrole⟩
    · have htr2 : train = false := by
        revert htr
        cases train <;> simp
      subst htr2
      rw [if_neg Bool.false_ne_true] at h
      by_cases hs0 : starts_with m0 kaggle_folder_test_images = true
      · rw [if_pos hs0] at h
        cases hp0 : img_number_from_name m0 with
        | none => rw [hp0] at h; simp at h
        | some n =>
          rw [hp0] at h
          simp only at h
          cases hrec : unzip_loop root false ms
              (fs.extract_to (folder_test root) (test_image_filename ctr)) (ctr + 1) with
          | error e => rw [hrec] at h; simp at h
          | ok r =>
            obtain ⟨fs3, is3, mk3, ix3, c3⟩ := r
            rw [hrec] at h
            simp only [Except.ok.injEq, Prod.mk.injEq] at h
            obtain ⟨h1, -, -, -, -⟩ := h
            subst h1
            show folder_test root ∈ fs3.dirs
            refine (unzip_loop_mono hrec).1 _ ?_
            exact FS.mem_extract_to.mpr (Or.inl rfl)
      · rw [if_neg hs0] at h
        obtain ⟨m, hmem, hrole⟩ := hm
        rcases List.mem_cons.mp hmem with h1 | h1
        · subst h1
          rw [role_matches, if_neg Bool.false_ne_true] at hrole
          exact absurd hrole hs0
        · exact ih h ⟨m, h1, hrole⟩

/-- A role-matching member whose name has no digits makes the loop fail
with the parse error. -/
theorem unzip_loop_parse_error {root : String} {train : Bool} {ms : List String}
    {fs : FS} {ctr : Nat} {m : String} (hmem : m ∈ ms)
    (hrole : role_matches train m = true) (hp : img_number_from_name m = none) :
    unzip_loop root train ms fs ctr = .error .parse := by
  induction ms generalizing fs ctr with
  | nil => simp at hmem
  | cons m0 ms ih =>
    rw [unzip_loop]
    by_cases htr : train = true
    · subst htr
      rw [if_pos rfl]
      by_cases he : m0 = m
      · subst he
        rw [role_matches, if_pos rfl, Bool.or_eq_true] at hrole
        rcases hrole with hs | hs
        · have hA : member_train_image m0 = .error .parse := by
            rw [member_train_image, if_pos hs, hp]
          simp only [hA]
        · have hA : member_train_image m0 = .ok [] :=
            member_train_image_spec_miss (not_image_of_mask hs)
          have hB : member_train_mask m0 = .error .parse := by
            rw [member_train_mask, if_pos hs, hp]
          simp only [hA, hB]
      · have hmem2 : m ∈ ms := by
          rcases List.mem_cons.mp hmem with h1 | h1
          · exact absurd h1.symm he
          · exact h1
        cases hA : member_train_image m0 with
        | error e =>
          have he2 := (member_train_image_err hA).1
          subst he2
          simp only [hA]
        | ok imF =>
          cases hB : member_train_mask m0 with
          | error e =>
            have he2 := (member_train_mask_err hB).1
            subst he2
            simp only [hA, hB]
          | ok mkF =>
            simp only [hA, hB, ih hmem2]
    · have htr2 : train = false := by
        revert htr
        cases train <;> simp
      subst htr2
      rw [role_matches, if_neg Bool.false_ne_true] at hrole
      rw [if_neg Bool.false_ne_true]
      by_cases he : m0 = m
      · subst he
        simp only [if_pos hrole, hp]
      · have hmem2 : m ∈ ms := by
          rcases List.mem_cons.mp hmem with h1 | h1
          · exact absurd h1.symm he
          · exact h1
        by_cases hs0 : starts_with m0 kaggle_folder_test_images = true
        · rw [if_pos hs0]
          cases hp0 : img_number_from_name m0 with
          | none => simp only [hp0]
          | some n => simp only [hp0, ih hmem2]
        · rw [if_neg hs0]
          exact ih hmem2

/-- In TEST role the loop produces one index per image and no masks. -/
theorem unzip_loop_test_lengths {root : String} {ms : List String} {fs : FS}
    {ctr : Nat} {fs2 : FS} {im mk : List String} {ix : List Nat} {c : Nat}
    (h : unzip_loop root false ms fs ctr = .ok (fs2, im, mk, ix, c)) :
    im.length = ix.length ∧ mk = [] := by
  induction ms generalizing fs ctr fs2 im mk ix c with
  | nil =>
    rw [unzip_loop] at h
    simp only [Except.ok.injEq, Prod.mk.injEq] at h
    obtain ⟨-, h2, h3, h4, -⟩ := h
    subst h2
    subst h3
    subst h4
    exact ⟨rfl, rfl⟩
  | cons m0 ms ih =>
    rw [unzip_loop, if_neg Bool.false_ne_true] at h
    by_cases hs0 : starts_with m0 kaggle_folder_test_images = true
    · rw [if_pos hs0] at h
      cases hp0 : img_number_from_name m0 with
      | none => rw [hp0] at h; simp at h
      | some n =>
        rw [hp0] at h
        simp only at h
        cases hrec : unzip_loop root false ms
            (fs.extract_to (folder_test root) (test_image_filename ctr)) (ctr + 1) with
        | error e => rw [hrec] at h; simp at h
        | ok r =>
          obtain ⟨fs3, is3, mk3, ix3, c3⟩ := r
          rw [hrec] at h
          simp only [Except.ok.injEq, Prod.mk.injEq] at h
          obtain ⟨-, h2, h3, h4, -⟩ := h
          subst h2
          subst h3
          subst h4
          have := ih hrec
          simp [this.1, this.2]
    · rw [if_neg hs0] at h
      exact ih h

/-! ### Lemmas about `unzip`, `download` -/

theorem check_exists_iff {root : String} {train : Bool} {fs : FS} :
    check_exists root train fs = true ↔ role_folder root train ∈ fs.dirs := by
  rw [check_exists, role_folder]
  by_cases htr : train = true
  · rw [if_pos htr, if_pos htr]
    simp
  · rw [if_neg htr, if_neg htr]
    simp

theorem unzip_err {root : String} {train : Bool} {ms : List String} {fs : FS} {e : DsError}
    (h : unzip_loop root train ms fs 0 = .error e) :
    unzip root train ms fs = .error e := by
  rw [unzip, h]

theorem unzip_train_ok {root : String} {ms : List String} {fs : FS} {fs2 : FS}
    {im mk : List String} {ix : List Nat} {c : Nat}
    (h : unzip_loop root true ms fs 0 = .ok (fs2, im, mk, ix, c)) :
    unzip root true ms fs = .ok (fs2, im, mk, ix, c) := by
  rw [unzip, h]
  rfl

theorem unzip_test_ok {root : String} {ms : List String} {fs : FS} {fs1 : FS}
    {im mk : List String} {ix : List Nat} {c : Nat}
    (h : unzip_loop root false ms fs 0 = .ok (fs1, im, mk, ix, c))
    (hdir : folder_test root ∈ fs1.dirs) :
    unzip root false ms fs
      = .ok ({ fs1.insert (path_join (folder_test root) kaggle_file_test_indeces) with
          test_idx_file := some ix }, im, mk, ix, c) := by
  rw [unzip, h]
  simp only [if_neg Bool.false_ne_true, if_pos hdir]

theorem unzip_test_save_err {root : String} {ms : List String} {fs : FS} {fs1 : FS}
    {im mk : List String} {ix : List Nat} {c : Nat}
    (h : unzip_loop root false ms fs 0 = .ok (fs1, im, mk, ix, c))
    (hdir : folder_test root ∉ fs1.dirs) :
    unzip root false ms fs = .error .save := by
  rw [unzip, h]
  simp only [if_neg Bool.false_ne_true, if_neg hdir]

/-- Inversion: a successful `unzip` comes from a successful loop whose
filesystem the final one extends. -/
theorem unzip_ok_inv {root : String} {train : Bool} {ms : List String} {fs : FS}
    {fs2 : FS} {im mk : List String} {ix : List Nat} {c : Nat}
    (h : unzip root train ms fs = .ok (fs2, im, mk, ix, c)) :
    ∃ fs1, unzip_loop root train ms fs 0 = .ok (fs1, im, mk, ix, c)
      ∧ (∀ p, p ∈ fs1.dirs → p ∈ fs2.dirs) := by
  rw [unzip] at h
  cases hl : unzip_loop root train ms fs 0 with
  | error e => rw [hl] at h; simp at h
  | ok r =>
    obtain ⟨fs1, is1, mk1, ix1, c1⟩ := r
    rw [hl] at h
    simp only at h
    by_cases htr : train = true
    · rw [if_pos htr] at h
      simp only [Except.ok.injEq, Prod.mk.injEq] at h
      obtain ⟨h1, h2, h3, h4, h5⟩ := h
      subst h1
      subst h2
      subst h3
      subst h4
      subst h5
      exact ⟨fs1, rfl, fun p hp => hp⟩
    · rw [if_neg htr] at h
      by_cases hdir : folder_test root ∈ fs1.dirs
      · rw [if_pos hdir] at h
        simp only [Except.ok.injEq, Prod.mk.injEq] at h
        obtain ⟨h1, h2, h3, h4, h5⟩ := h
        subst h2
        subst h3
        subst h4
        subst h5
        refine ⟨fs1, rfl, fun p hp => ?_⟩
        rw [← h1]
        show p ∈ (fs1.insert (path_join (folder_test root) kaggle_file_test_indeces)).dirs
        exact FS.mem_insert.mpr (Or.inr hp)
      · rw [if_neg hdir] at h
        simp at h

/-- In TEST role a successful `unzip` persisted exactly the index list,
one entry per extracted image. -/
theorem unzip_test_ok_inv {root : String} {ms : List String} {fs : FS}
    {fs2 : FS} {im mk : List String} {ix : List Nat} {c : Nat}
    (h : unzip root false ms fs = .ok (fs2, im, mk, ix, c)) :
    fs2.test_idx_file = some ix ∧ im.length = ix.length ∧ mk = [] := by
  rw [unzip] at h
  cases hl : unzip_loop root false ms fs 0 with
  | error e => rw [hl] at h; simp at h
  | ok r =>
    obtain ⟨fs1, is1, mk1, ix1, c1⟩ := r
    rw [hl] at h
    simp only [if_neg Bool.false_ne_true] at h
    by_cases hdir : folder_test root ∈ fs1.dirs
    · rw [if_pos hdir] at h
      simp only [Except.ok.injEq, Prod.mk.injEq] at h
      obtain ⟨h1, h2, h3, h4, h5⟩ := h
      subst h2
      subst h3
      subst h4
      have hlen := unzip_loop_test_lengths hl
      refine ⟨?_, hlen.1, hlen.2⟩
      rw [← h1]
    · rw [if_neg hdir] at h
      simp at h

theorem download_exists {root : String} {train : Bool} {dl : Except String (List String)}
    {fs : FS} (h : check_exists root train fs = true) :
    download root train dl fs = (.ok fs, 0) := by
  rw [download, if_pos h]

theorem download_dl_err {root : String} {train : Bool} {fs : FS} {e : String}
    (h : ¬ check_exists root train fs = true) :
    download root train (.error e) fs = (.error (.acquisition e), 1) := by
  rw [download, if_neg h]

/-- The filesystem passed to `unzip` by `download`: raw and processed
folders created, archive landed. -/
def download_fs (root : String) (fs : FS) : FS :=
  (((fs.insert (folder_raw root)).insert (folder_processed root)).insert
    (path_join (folder_raw root) (kaggle_competition ++ ".zip")))

theorem download_unzips {root : String} {train : Bool} {members : List String} {fs : FS}
    (h : ¬ check_exists root train fs = true) :
    download root train (.ok members) fs
      = (match unzip root train members (download_fs root fs) with
        | .error e => (.error e, 1)
        | .ok (fs3, _, _, _, _) => (.ok fs3, 1)) := by
  rw [download, if_neg h]
  rfl

/-- After a successful `download` over an archive with at least one
role-matching member, the role folder exists. -/
theorem download_ok_creates {root : String} {train : Bool} {members : List String}
    {fs : FS} {fs2 : FS} {c : Nat}
    (hm : ∃ m ∈ members, role_matches train m = true)
    (h : download root train (.ok members) fs = (.ok fs2, c)) :
    check_exists root train fs2 = true := by
  by_cases hex : check_exists root train fs = true
  · rw [download_exists hex] at h
    simp only [Prod.mk.injEq, Except.ok.injEq] at h
    rw [← h.1]
    exact hex
  · rw [download_unzips hex] at h
    cases hu : unzip root train members (download_fs root fs) with
    | error e => rw [hu] at h; simp at h
    | ok r =>
      obtain ⟨fs3, is3, mk3, ix3, c3⟩ := r
      rw [hu] at h
      simp only [Prod.mk.injEq, Except.ok.injEq] at h
      obtain ⟨h1, -⟩ := h
      subst h1
      obtain ⟨fs1, hl, hsub⟩ := unzip_ok_inv hu
      rw [check_exists_iff]
      exact hsub _ (unzip_loop_match_creates hl hm)

/-! ### Claim theorems -/

/-- C9: during extraction, encountering a role-matching archive member
whose name contains no run of digits raises a fatal parse error (the
numeric key cannot be derived), aborting extraction; the error is
surfaced, not silently swallowed. -/
theorem C9_parse_error_aborts (root : String) (train : Bool) (members : List String)
    (fs : FS) (m : String) (hmem : m ∈ members)
    (hrole : role_matches train m = true)
    (hp : img_number_from_name m = none) :
    unzip root train members fs = .error .parse :=
  unzip_err (unzip_loop_parse_error hmem hrole hp)

theorem C9_parse_error_aborts_witness :
    ("training/training/images/satImage.png" ∈ ["training/training/images/satImage.png"]
      ∧ role_matches true "training/training/images/satImage.png" = true
      ∧ img_number_from_name "training/training/images/satImage.png" = none)
    ∧ unzip "r" true ["training/training/images/satImage.png"] ⟨[], none⟩
        = .error .parse :=
  ⟨⟨by decide, by decide, by decide⟩,
    C9_parse_error_aborts "r" true ["training/training/images/satImage.png"] ⟨[], none⟩
      "training/training/images/satImage.png" (by decide) (by decide) (by decide)⟩

/-- C7: if the download collaborator fails, the error is fatal and
surfaced as an acquisition error after exactly one collaborator
invocation, and extraction is never attempted (the result carries no
extracted state); when the collaborator succeeds and `download`
succeeds, the archive has fully landed in the raw folder. -/
theorem C7_acquisition_failure (root : String) (train : Bool) (fs : FS) (e : String)
    (h : ¬ check_exists root train fs = true) :
    download root train (.error e) fs = (.error (.acquisition e), 1)
    ∧ (∀ members fs3 n, download root train (.ok members) fs = (.ok fs3, n) →
        path_join (folder_raw root) (kaggle_competition ++ ".zip") ∈ fs3.dirs) := by
  constructor
  · exact download_dl_err h
  · intro members fs3 n hdl
    rw [download_unzips h] at hdl
    cases hu : unzip root train members (download_fs root fs) with
    | error e2 => rw [hu] at hdl; simp at hdl
    | ok r =>
      obtain ⟨fs4, a, b, cc, d⟩ := r
      rw [hu] at hdl
      simp only [Prod.mk.injEq, Except.ok.injEq] at hdl
      obtain ⟨h1, -⟩ := hdl
      subst h1
      obtain ⟨fs1, hl, hsub⟩ := unzip_ok_inv hu
      refine hsub _ ?_
      refine (unzip_loop_mono hl).1 _ ?_
      rw [download_fs]
      exact FS.mem_insert.mpr (Or.inl rfl)

theorem C7_acquisition_failure_witness :
    (¬ check_exists "r" true ⟨[], none⟩ = true)
    ∧ download "r" true (.error "auth failed") ⟨[], none⟩
        = (.error (.acquisition "auth failed"), 1)
    ∧ (∀ members fs3 n, download "r" true (.ok members) ⟨[], none⟩ = (.ok fs3, n) →
        path_join (folder_raw "r") (kaggle_competition ++ ".zip") ∈ fs3.dirs) :=
  ⟨by decide,
    (C7_acquisition_failure "r" true ⟨[], none⟩ "auth failed" (by decide)).1,
    (C7_acquisition_failure "r" true ⟨[], none⟩ "auth failed" (by decide)).2⟩

/-- C8: constructing the collection with download disabled over a root
whose canonical processed folder for the role is absent raises the
fatal "dataset not found" error (whose message instructs the caller to
enable download), performs no collaborator call, and performs no scan
(the result does not depend on the directory listing). -/
theorem C8_missing_dataset (root : String) (train : Bool)
    (dl : Except String (List String)) (listing : List String) (fs : FS)
    (h : ¬ check_exists root train fs = true) :
    dataset_init root train false dl listing fs
      = (.error (.notFound not_found_message), 0) := by
  rw [dataset_init]
  simp only [if_neg Bool.false_ne_true, if_neg h]

theorem C8_missing_dataset_witness :
    (¬ check_exists "r" true ⟨[], none⟩ = true)
    ∧ dataset_init "r" true false (.ok ["x"]) ["y"] ⟨[], none⟩
        = (.error (.notFound not_found_message), 0) :=
  ⟨by decide, C8_missing_dataset "r" true (.ok ["x"]) ["y"] ⟨[], none⟩ (by decide)⟩

theorem exists_test_match_of_ns {members : List String} {ns : List Nat}
    (hns : (members.filter (fun m => starts_with m kaggle_folder_test_images)).mapM
        img_number_from_name = some ns) (hne : ns ≠ []) :
    ∃ m ∈ members, role_matches false m = true := by
  cases hf : members.filter (fun m => starts_with m kaggle_folder_test_images) with
  | nil =>
    rw [hf] at hns
    simp only [List.mapM_nil, pure, Option.some.injEq] at hns
    exact absurd hns.symm hne
  | cons m0 rest =>
    have hm0 : m0 ∈ members.filter (fun m => starts_with m kaggle_folder_test_images) := by
      rw [hf]
      exact List.mem_cons_self m0 rest
    rw [List.mem_filter] at hm0
    refine ⟨m0, hm0.1, ?_⟩
    rw [role_matches, if_neg Bool.false_ne_true]
    exact hm0.2

theorem exists_train_match_of_ns {members : List String} {ns : List Nat}
    (hns : (members.filter (fun m => starts_with m kaggle_folder_train_images)).mapM
        img_number_from_name = some ns) (hne : ns ≠ []) :
    ∃ m ∈ members, role_matches true m = true := by
  cases hf : members.filter (fun m => starts_with m kaggle_folder_train_images) with
  | nil =>
    rw [hf] at hns
    simp only [List.mapM_nil, pure, Option.some.injEq] at hns
    exact absurd hns.symm hne
  | cons m0 rest =>
    have hm0 : m0 ∈ members.filter (fun m => starts_with m kaggle_folder_train_images) := by
      rw [hf]
      exact List.mem_cons_self m0 rest
    rw [List.mem_filter] at hm0
    refine ⟨m0, hm0.1, ?_⟩
    rw [role_matches, if_pos rfl, Bool.or_eq_true]
    exact Or.inl hm0.2

theorem role_folder_false (root : String) : role_folder root false = folder_test root := by
  rw [role_folder, if_neg Bool.false_ne_true]

theorem role_folder_true (root : String) : role_folder root true = folder_train root := by
  rw [role_folder, if_pos rfl]

/-- C1: for a test archive whose members matching the test-images folder
carry original numbers `ns` in encounter order, `unzip` persists exactly
`ns` in that order as the test index map, and assigns the canonical
filenames `000_image.png`, `001_image.png`, ... counting up from 0 in
encounter order. -/
theorem C1_test_index_roundtrip (root : String) (members : List String) (fs : FS)
    (ns : List Nat)
    (hns : (members.filter (fun m => starts_with m kaggle_folder_test_images)).mapM
        img_number_from_name = some ns)
    (hne : ns ≠ []) :
    ∃ fs2, unzip root false members fs
        = .ok (fs2, (List.range ns.length).map test_image_filename, [], ns, ns.length)
      ∧ fs2.test_idx_file = some ns := by
  obtain ⟨fs1, hl⟩ := unzip_loop_test_spec fs 0 hns
  have hl2 : unzip_loop root false members fs 0
      = .ok (fs1, (List.range ns.length).map test_image_filename, [], ns, ns.length) := by
    rw [List.range_eq_range']
    exact hl
  have hdir : folder_test root ∈ fs1.dirs := by
    have := unzip_loop_match_creates hl2 (exists_test_match_of_ns hns hne)
    rw [role_folder_false] at this
    exact this
  exact ⟨_, unzip_test_ok hl2 hdir, rfl⟩

theorem C1_test_index_roundtrip_witness :
    ((["test_images/test_images/test_7.png", "junk",
        "test_images/test_images/test_3.png",
        "test_images/test_images/test_19.png"].filter
          (fun m => starts_with m kaggle_folder_test_images)).mapM
        img_number_from_name = some [7, 3, 19])
    ∧ ∃ fs2, unzip "r" false
        ["test_images/test_images/test_7.png", "junk",
          "test_images/test_images/test_3.png",
          "test_images/test_images/test_19.png"] ⟨[], none⟩
        = .ok (fs2, (List.range ([7, 3, 19] : List Nat).length).map test_image_filename,
            [], [7, 3, 19], ([7, 3, 19] : List Nat).length)
      ∧ fs2.test_idx_file = some [7, 3, 19] :=
  ⟨by decide,
    C1_test_index_roundtrip "r"
      ["test_images/test_images/test_7.png", "junk",
        "test_images/test_images/test_3.png",
        "test_images/test_images/test_19.png"] ⟨[], none⟩ [7, 3, 19]
      (by decide) (by decide)⟩

theorem train_image_filename_eq {n : Nat} (h : 1 ≤ n) :
    train_image_filename n = format03_nat (n - 1) ++ "_image.png" := by
  rw [train_image_filename]
  have e : (n : Int) - 1 = ((n - 1 : Nat) : Int) := by omega
  rw [e, format03_int_ofNat]

theorem train_mask_filename_eq {n : Nat} (h : 1 ≤ n) :
    train_mask_filename n = format03_nat (n - 1) ++ "_mask.png" := by
  rw [train_mask_filename]
  have e : (n : Int) - 1 = ((n - 1 : Nat) : Int) := by omega
  rw [e, format03_int_ofNat]

/-- C5: a train archive member whose first run of digits is `n` (1-based)
is extracted under canonical key `n - 1` rendered by `%03d`: zero-padded
decimal digits (exactly three characters when `n ≤ 1000`) whose value is
`n - 1`, with filename `<key>_image.png` resp. `<key>_mask.png`. -/
theorem C5_zero_based_remap (root : String) (fs : FS) (mI mM : String) (nI nM : Nat)
    (hsI : starts_with mI kaggle_folder_train_images = true)
    (hpI : img_number_from_name mI = some nI) (h1I : 1 ≤ nI)
    (hsM : starts_with mM kaggle_folder_train_masks = true)
    (hpM : img_number_from_name mM = some nM) (h1M : 1 ≤ nM) :
    ∃ fs2, unzip root true [mI, mM] fs
        = .ok (fs2, [train_image_filename nI], [train_mask_filename nM], [], 2)
      ∧ train_image_filename nI = format03_nat (nI - 1) ++ "_image.png"
      ∧ train_mask_filename nM = format03_nat (nM - 1) ++ "_mask.png"
      ∧ charsToNat (padZeros 3 (natDigits (nI - 1))) = nI - 1
      ∧ charsToNat (padZeros 3 (natDigits (nM - 1))) = nM - 1
      ∧ (∀ c ∈ (format03_nat (nI - 1)).data, c.isDigit = true)
      ∧ (nI ≤ 1000 → (format03_nat (nI - 1)).length = 3)
      ∧ (nM ≤ 1000 → (format03_nat (nM - 1)).length = 3) := by
  have hfI : (([mI, mM]).filter (fun m => starts_with m kaggle_folder_train_images)).mapM
      img_number_from_name = some [nI] := by
    rw [List.filter_cons, if_pos hsI, List.filter_cons,
      if_neg (not_image_of_mask hsM), List.filter_nil]
    rw [List.mapM_cons, hpI, List.mapM_nil]
    rfl
  have hfM : (([mI, mM]).filter (fun m => starts_with m kaggle_folder_train_masks)).mapM
      img_number_from_name = some [nM] := by
    rw [List.filter_cons, if_neg (not_mask_of_image hsI), List.filter_cons,
      if_pos hsM, List.filter_nil]
    rw [List.mapM_cons, hpM, List.mapM_nil]
    rfl
  obtain ⟨fs2, hl⟩ := unzip_loop_train_spec fs 0 hfI hfM
  refine ⟨fs2, ?_, train_image_filename_eq h1I, train_mask_filename_eq h1M,
    charsToNat_padZeros 3 (nI - 1), charsToNat_padZeros 3 (nM - 1),
    format03_nat_chars, fun hle => format03_nat_length (by omega),
    fun hle => format03_nat_length (by omega)⟩
  have := unzip_train_ok hl
  simpa using this

theorem C5_zero_based_remap_witness :
    (starts_with "training/training/images/satImage_042.png"
        kaggle_folder_train_images = true
      ∧ img_number_from_name "training/training/images/satImage_042.png" = some 42
      ∧ starts_with "training/training/groundtruth/satImage_001.png"
          kaggle_folder_train_masks = true
      ∧ img_number_from_name "training/training/groundtruth/satImage_001.png" = some 1)
    ∧ (∃ fs2, unzip "r" true
        ["training/training/images/satImage_042.png",
          "training/training/groundtruth/satImage_001.png"] ⟨[], none⟩
        = .ok (fs2, [train_image_filename 42], [train_mask_filename 1], [], 2)
      ∧ train_image_filename 42 = format03_nat 41 ++ "_image.png"
      ∧ train_mask_filename 1 = format03_nat 0 ++ "_mask.png"
      ∧ charsToNat (padZeros 3 (natDigits 41)) = 41
      ∧ charsToNat (padZeros 3 (natDigits 0)) = 0
      ∧ (∀ c ∈ (format03_nat 41).data, c.isDigit = true)
      ∧ (42 ≤ 1000 → (format03_nat 41).length = 3)
      ∧ (1 ≤ 1000 → (format03_nat 0).length = 3))
    ∧ train_image_filename 42 = "041_image.png"
    ∧ train_mask_filename 1 = "000_mask.png" :=
  ⟨⟨by decide, by decide, by decide, by decide⟩,
    C5_zero_based_remap "r" ⟨[], none⟩
      "training/training/images/satImage_042.png"
      "training/training/groundtruth/satImage_001.png" 42 1
      (by decide) (by decide) (by decide) (by decide) (by decide) (by decide),
    by decide, by decide⟩

/-- C3 counterexample: on a fresh root, downloading an archive with no
role-matching member performs collaborator work on BOTH of two
consecutive calls — the second call is not a no-op, because extraction
never created the role folder. This refutes the unconditional
"calling it twice performs the work at most once". -/
theorem C3_counterexample :
    download "r" true (.ok ["README.md"]) ⟨[], none⟩
      = (.ok (download_fs "r" ⟨[], none⟩), 1)
    ∧ (download "r" true (.ok ["README.md"]) (download_fs "r" ⟨[], none⟩)).2 = 1 :=
  ⟨rfl, rfl⟩

/-- C3 (amended): if the canonical processed sub-folder for the role
already exists when `download` is invoked, the call returns immediately
with no collaborator call and no filesystem change; and provided the
archive contains at least one member matching the role's recognized
prefixes, a second call after a successful first call is a pure no-op. -/
theorem C3_idempotent_materialization (root : String) (train : Bool) :
    (∀ dl fs, check_exists root train fs = true →
        download root train dl fs = (.ok fs, 0))
    ∧ (∀ members fs fs2 c dl2, (∃ m ∈ members, role_matches train m = true) →
        download root train (.ok members) fs = (.ok fs2, c) →
        download root train dl2 fs2 = (.ok fs2, 0)) :=
  ⟨fun dl fs h => download_exists h,
    fun members fs fs2 c dl2 hm h => download_exists (download_ok_creates hm h)⟩

theorem C3_idempotent_materialization_witness :
    download "r" true (.ok ["missing_digits"])
      ⟨["r/rs_kaggle_dataset/processed/train"], none⟩
      = (.ok ⟨["r/rs_kaggle_dataset/processed/train"], none⟩, 0)
    ∧ download "r" true (.ok [])
        ⟨["r/rs_kaggle_dataset/processed/train/000_image.png",
          "r/rs_kaggle_dataset/processed/train",
          "r/rs_kaggle_dataset/raw/cil-road-segmentation-2021.zip",
          "r/rs_kaggle_dataset/processed", "r/rs_kaggle_dataset/raw"], none⟩
      = (.ok ⟨["r/rs_kaggle_dataset/processed/train/000_image.png",
          "r/rs_kaggle_dataset/processed/train",
          "r/rs_kaggle_dataset/raw/cil-road-segmentation-2021.zip",
          "r/rs_kaggle_dataset/processed", "r/rs_kaggle_dataset/raw"], none⟩, 0) :=
  ⟨(C3_idempotent_materialization "r" true).1 (.ok ["missing_digits"])
      ⟨["r/rs_kaggle_dataset/processed/train"], none⟩ (by decide),
    (C3_idempotent_materialization "r" true).2
      ["training/training/images/satImage_001.png"] ⟨[], none⟩
      ⟨["r/rs_kaggle_dataset/processed/train/000_image.png",
        "r/rs_kaggle_dataset/processed/train",
        "r/rs_kaggle_dataset/raw/cil-road-segmentation-2021.zip",
        "r/rs_kaggle_dataset/processed", "r/rs_kaggle_dataset/raw"], none⟩ 1 (.ok [])
      ⟨"training/training/images/satImage_001.png", by decide, by decide⟩ rfl⟩

theorem folder_train_last (root : String) :
    (folder_train root).data.getLast? = some 'n' := by
  rw [folder_train, path_join_getLast _ (by decide)]
  rfl

theorem folder_raw_last (root : String) :
    (folder_raw root).data.getLast? = some 'w' := by
  rw [folder_raw, path_join_getLast _ (by decide)]
  rfl

theorem folder_processed_last (root : String) :
    (folder_processed root).data.getLast? = some 'd' := by
  rw [folder_processed, path_join_getLast _ (by decide)]
  rfl

theorem zip_path_last (root : String) :
    (path_join (folder_raw root) (kaggle_competition ++ ".zip")).data.getLast?
      = some 'p' := by
  rw [path_join_getLast _ (by decide)]
  rfl

/-- C10 counterexample: for the TEST role over an archive with no
matching member, construction with download enabled fails with the
save error raised while persisting the index map into the never-created
test folder — not with the "dataset not found" error the claim
predicts. -/
theorem C10_counterexample :
    dataset_init "r" false true (.ok []) [] ⟨[], none⟩ = (.error .save, 1)
    ∧ DsError.save ≠ DsError.notFound not_found_message :=
  ⟨rfl, by decide⟩

/-- C10 (amended, TRAIN role): if the archive contains no member
matching the train prefixes, extraction creates nothing, so only the
raw and processed parents (and the landed archive) are added, the train
folder still does not exist, and construction with download enabled
fails with the "dataset not found" error even though download and
extraction completed without error. (For the TEST role, persisting the
index map fails first, so construction fails with the save error
instead.) -/
theorem C10_no_match_not_found (root : String) (members listing : List String) (fs : FS)
    (hmatch : ∀ m ∈ members, role_matches true m = false)
    (hex : ¬ check_exists root true fs = true) :
    (∀ p, p ∈ (download_fs root fs).dirs ↔ p ∈ fs.dirs ∨ p = folder_raw root
        ∨ p = folder_processed root
        ∨ p = path_join (folder_raw root) (kaggle_competition ++ ".zip"))
    ∧ folder_train root ∉ (download_fs root fs).dirs
    ∧ download root true (.ok members) fs = (.ok (download_fs root fs), 1)
    ∧ dataset_init root true true (.ok members) listing fs
        = (.error (.notFound not_found_message), 1) := by
  have hmem : ∀ p, p ∈ (download_fs root fs).dirs ↔ p ∈ fs.dirs ∨ p = folder_raw root
      ∨ p = folder_processed root
      ∨ p = path_join (folder_raw root) (kaggle_competition ++ ".zip") := by
    intro p
    rw [download_fs]
    simp only [FS.mem_insert]
    tauto
  have hfs : folder_train root ∉ fs.dirs := by
    intro hh
    refine hex (check_exists_iff.mpr ?_)
    rw [role_folder_true]
    exact hh
  have hntr : folder_train root ∉ (download_fs root fs).dirs := by
    rw [hmem]
    intro hcontra
    rcases hcontra with h1 | h1 | h1 | h1
    · exact hfs h1
    · have := congrArg (fun s => s.data.getLast?) h1
      simp only [folder_train_last, folder_raw_last] at this
      exact absurd this (by decide)
    · have := congrArg (fun s => s.data.getLast?) h1
      simp only [folder_train_last, folder_processed_last] at this
      exact absurd this (by decide)
    · have := congrArg (fun s => s.data.getLast?) h1
      simp only [folder_train_last, zip_path_last] at this
      exact absurd this (by decide)
  have hdl : download root true (.ok members) fs = (.ok (download_fs root fs), 1) := by
    rw [download_unzips hex]
    rw [unzip_train_ok (unzip_loop_no_match (download_fs root fs) 0 hmatch)]
  have hcheck2 : ¬ check_exists root true (download_fs root fs) = true := by
    rw [check_exists_iff, role_folder_true]
    exact hntr
  refine ⟨hmem, hntr, hdl, ?_⟩
  rw [dataset_init]
  have step : (if (true : Bool) = true then download root true (.ok members) fs
      else (.ok fs, 0)) = ((.ok (download_fs root fs) : Except DsError FS), 1) := by
    rw [if_pos rfl, hdl]
  rw [step]
  simp only [if_neg hcheck2]

theorem C10_no_match_not_found_witness :
    (¬ check_exists "r" true ⟨[], none⟩ = true)
    ∧ folder_train "r" ∉ (download_fs "r" ⟨[], none⟩).dirs
    ∧ download "r" true (.ok ["README.md"]) ⟨[], none⟩
        = (.ok (download_fs "r" ⟨[], none⟩), 1)
    ∧ dataset_init "r" true true (.ok ["README.md"]) ["junk"] ⟨[], none⟩
        = (.error (.notFound not_found_message), 1) := by
  have h := C10_no_match_not_found "r" ["README.md"] ["junk"] ⟨[], none⟩
    (by decide) (by decide)
  exact ⟨by decide, h.2.1, h.2.2.1, h.2.2.2⟩

theorem getitem_test_eq {tf : Option (String → String)} {st : DState} {i : Nat}
    (h1 : i < st.images.length) (h2 : i < st.kaggle_test_indeces.length) :
    getitem_test tf st i
      = some (apply_tf tf (st.images.get ⟨i, h1⟩),
          st.kaggle_test_indeces.get ⟨i, h2⟩) := by
  rw [getitem_test, List.getElem?_eq_getElem h1, List.getElem?_eq_getElem h2]
  rfl

theorem dataset_init_no_download_inv {root : String} {train : Bool}
    {dl : Except String (List String)} {listing : List String} {fs : FS}
    {st : DState} {c : Nat}
    (h : dataset_init root train false dl listing fs = (.ok st, c)) :
    process root train listing fs = .ok st ∧ c = 0
      ∧ check_exists root train fs = true := by
  rw [dataset_init] at h
  simp only [if_neg Bool.false_ne_true] at h
  by_cases hc : check_exists root train fs = true
  · rw [if_pos hc] at h
    cases hp : process root train listing fs with
    | error e => rw [hp] at h; simp at h
    | ok st2 =>
      rw [hp] at h
      simp only [Prod.mk.injEq, Except.ok.injEq] at h
      obtain ⟨h1, h2⟩ := h
      subst h1
      exact ⟨rfl, h2.symm, hc⟩
  · rw [if_neg hc] at h
    simp at h

/-- C4: the persisted test index map holds one original integer per
canonical test key, positioned by index; every TEST-role instance loads
it, and `__getitem__` returns as second component exactly
`kaggle_test_indeces[i]` for every in-range `i`. -/
theorem C4_index_positioned (root : String) (members : List String)
    (fs fsr : FS) (tf : Option (String → String)) (dl : Except String (List String))
    (listing : List String) (ixs : List Nat) :
    (∀ fs2 im mk ix c, unzip root false members fs = .ok (fs2, im, mk, ix, c) →
        fs2.test_idx_file = some ix ∧ im.length = ix.length)
    ∧ (∀ st c2, fsr.test_idx_file = some ixs →
        dataset_init root false false dl listing fsr = (.ok st, c2) →
        st.kaggle_test_indeces = ixs
        ∧ ∀ i (h1 : i < st.images.length) (h2 : i < st.kaggle_test_indeces.length),
            getitem_test tf st i
              = some (apply_tf tf (st.images.get ⟨i, h1⟩),
                  st.kaggle_test_indeces.get ⟨i, h2⟩)) := by
  constructor
  · intro fs2 im mk ix c h
    have h2 := unzip_test_ok_inv h
    exact ⟨h2.1, h2.2.1⟩
  · intro st c2 hidx hinit
    obtain ⟨hproc, -, -⟩ := dataset_init_no_download_inv hinit
    rw [process] at hproc
    simp only [if_neg Bool.false_ne_true, hidx] at hproc
    have hk : st.kaggle_test_indeces = ixs := by
      simp only [Except.ok.injEq] at hproc
      rw [← hproc]
    exact ⟨hk, fun i h1 h2 => getitem_test_eq h1 h2⟩

theorem C4_index_positioned_witness :
    (({ dirs := ["r/rs_kaggle_dataset/processed/test/_kaggle_test_indeces.pt",
          "r/rs_kaggle_dataset/processed/test/001_image.png",
          "r/rs_kaggle_dataset/processed/test/000_image.png",
          "r/rs_kaggle_dataset/processed/test"],
        test_idx_file := some [7, 3] } : FS).test_idx_file = some [7, 3]
      ∧ (["000_image.png", "001_image.png"] : List String).length
          = ([7, 3] : List Nat).length)
    ∧ ((⟨["r/rs_kaggle_dataset/processed/test/000_image.png",
          "r/rs_kaggle_dataset/processed/test/001_image.png"], [], [7, 3]⟩ :
            DState).kaggle_test_indeces = [7, 3]
      ∧ ∀ i (h1 : i < (⟨["r/rs_kaggle_dataset/processed/test/000_image.png",
            "r/rs_kaggle_dataset/processed/test/001_image.png"], [], [7, 3]⟩ :
              DState).images.length)
          (h2 : i < (⟨["r/rs_kaggle_dataset/processed/test/000_image.png",
            "r/rs_kaggle_dataset/processed/test/001_image.png"], [], [7, 3]⟩ :
              DState).kaggle_test_indeces.length),
          getitem_test none (⟨["r/rs_kaggle_dataset/processed/test/000_image.png",
            "r/rs_kaggle_dataset/processed/test/001_image.png"], [], [7, 3]⟩ : DState) i
            = some (apply_tf none ((⟨["r/rs_kaggle_dataset/processed/test/000_image.png",
                "r/rs_kaggle_dataset/processed/test/001_image.png"], [], [7, 3]⟩ :
                  DState).images.get ⟨i, h1⟩),
                (⟨["r/rs_kaggle_dataset/processed/test/000_image.png",
                  "r/rs_kaggle_dataset/processed/test/001_image.png"], [], [7, 3]⟩ :
                    DState).kaggle_test_indeces.get ⟨i, h2⟩)) :=
  ⟨(C4_index_positioned "r"
      ["test_images/test_images/test_7.png", "test_images/test_images/test_3.png"]
      ⟨[], none⟩ ⟨["r/rs_kaggle_dataset/processed/test"], some [7, 3]⟩ none (.ok [])
      ["001_image.png", "000_image.png", "_kaggle_test_indeces.pt"] [7, 3]).1
      _ _ _ _ _ rfl,
    (C4_index_positioned "r"
      ["test_images/test_images/test_7.png", "test_images/test_images/test_3.png"]
      ⟨[], none⟩ ⟨["r/rs_kaggle_dataset/processed/test"], some [7, 3]⟩ none (.ok [])
      ["001_image.png", "000_image.png", "_kaggle_test_indeces.pt"] [7, 3]).2
      _ 0 rfl (by rfl)⟩

/-! ### Order and key lemmas for canonical filenames -/

theorem filter_perm_split {α : Type} (p : α → Bool) {listing A B : List α}
    (hperm : List.Perm listing (A ++ B))
    (hA : ∀ a ∈ A, p a = true) (hB : ∀ b ∈ B, p b = false) :
    List.Perm (listing.filter p) A := by
  have h1 := hperm.filter p
  have h2 : (A ++ B).filter p = A := by
    rw [List.filter_append, List.filter_eq_self.mpr hA,
      List.filter_eq_nil_iff.mpr (fun b hb => by simp [hB b hb]), List.append_nil]
  rw [h2] at h1
  exact h1

theorem format03_nat_ne_nil (k : Nat) : (format03_nat k).data ≠ [] := by
  show padZeros 3 (natDigits k) ≠ []
  simp [padZeros, natDigits_ne_nil]

theorem format03_int_ne_nil (v : Int) : (format03_int v).data ≠ [] := by
  rw [format03_int]
  split
  · simp
  · exact format03_nat_ne_nil _

theorem format03_nat_append_head (k : Nat) (s : String) :
    (format03_nat k ++ s).data.head? ≠ some '/' := by
  intro h
  rw [String.data_append, List.head?_append] at h
  cases hh : (format03_nat k).data with
  | nil => exact format03_nat_ne_nil k hh
  | cons c cs =>
    rw [hh] at h
    simp only [List.head?_cons] at h
    have h2 : (some c : Option Char) = some '/' := h
    simp only [Option.some.injEq] at h2
    have hc : c ∈ (format03_nat k).data := by
      rw [hh]
      exact List.mem_cons_self c cs
    have := format03_nat_chars c hc
    rw [h2] at this
    exact absurd this (by decide)

theorem format03_int_append_head (v : Int) (s : String) :
    (format03_int v ++ s).data.head? ≠ some '/' := by
  intro h
  rw [String.data_append, List.head?_append] at h
  cases hh : (format03_int v).data with
  | nil => exact format03_int_ne_nil v hh
  | cons c cs =>
    rw [hh] at h
    simp only [List.head?_cons] at h
    have h2 : (some c : Option Char) = some '/' := h
    simp only [Option.some.injEq] at h2
    have hc : c ∈ (format03_int v).data := by
      rw [hh]
      exact List.mem_cons_self c cs
    rcases format03_int_chars c hc with h1 | h1
    · rw [h2] at h1
      exact absurd h1 (by decide)
    · rw [h2] at h1
      exact absurd h1 (by decide)

theorem format03_nat_data_length {k : Nat} (h : k < 1000) :
    (format03_nat k).data.length = 3 := by
  show (padZeros 3 (natDigits k)).length = 3
  rw [three_digit_form h]
  rfl

/-- For three-digit keys, the lexicographic order of joined canonical
filenames with a common suffix is the numeric order of the keys. -/
theorem str_le_canonical3 (d : String) (s : String) {a b : Nat}
    (ha : a < 1000) (hb : b < 1000) :
    (str_le (path_join d (format03_nat a ++ s)) (path_join d (format03_nat b ++ s))
      = true) ↔ a ≤ b := by
  rw [str_le_path_join d (format03_nat_append_head a s) (format03_nat_append_head b s)]
  rw [String.data_append, String.data_append]
  rw [charListLe_append_same_length s.data
    (by rw [format03_nat_data_length ha, format03_nat_data_length hb])]
  exact charListLe_format03_nat ha hb

theorem train_image_filename_inj {a b : Nat}
    (h : train_image_filename a = train_image_filename b) : a = b := by
  rw [train_image_filename, train_image_filename] at h
  have hdata := congrArg String.data h
  rw [String.data_append, String.data_append] at hdata
  have h2 := List.append_cancel_right hdata
  have h3 : format03_int ((a : Int) - 1) = format03_int ((b : Int) - 1) := by
    have e1 := string_eta (format03_int ((a : Int) - 1))
    have e2 := string_eta (format03_int ((b : Int) - 1))
    rw [← e1, ← e2, h2]
  have := format03_int_injective h3
  omega

theorem format03_int_data_ne {v w : Int} (h : v ≠ w) :
    (format03_int v).data ≠ (format03_int w).data := by
  intro hc
  refine h (format03_int_injective ?_)
  rw [← string_eta (format03_int v), ← string_eta (format03_int w), hc]

/-- The image order and the mask order on train keys coincide: both
compare the shared `%03d` field first, and on a tie both hit the `'_'`
separator. -/
theorem str_le_img_iff_mask (d : String) (a b : Nat) :
    (str_le (path_join d (train_mask_filename a)) (path_join d (train_mask_filename b))
        = true)
      ↔ (str_le (path_join d (train_image_filename a))
          (path_join d (train_image_filename b)) = true) := by
  by_cases hab : a = b
  · subst hab
    constructor
    · intro _
      exact charListLe_refl _
    · intro _
      exact charListLe_refl _
  · have hne : ((a : Int) - 1) ≠ ((b : Int) - 1) := by omega
    have hdne := format03_int_data_ne hne
    rw [train_mask_filename, train_mask_filename, train_image_filename,
      train_image_filename]
    rw [str_le_path_join d (format03_int_append_head _ _) (format03_int_append_head _ _)]
    rw [str_le_path_join d (format03_int_append_head _ _) (format03_int_append_head _ _)]
    rw [String.data_append, String.data_append, String.data_append, String.data_append]
    have hmask : ("_mask.png" : String).data = '_' :: "mask.png".data := rfl
    have himg : ("_image.png" : String).data = '_' :: "image.png".data := rfl
    rw [hmask, himg]
    rw [charListLe_append_head ("mask.png" : String).data ("mask.png" : String).data hdne
      (fun hc => absurd (format03_int_chars '_' hc) (by decide))
      (fun hc => absurd (format03_int_chars '_' hc) (by decide)),
      charListLe_append_head ("image.png" : String).data ("image.png" : String).data hdne
      (fun hc => absurd (format03_int_chars '_' hc) (by decide))
      (fun hc => absurd (format03_int_chars '_' hc) (by decide))]

theorem slash_not_in_train_image (k : Nat) : '/' ∉ (train_image_filename k).data := by
  rw [train_image_filename, String.data_append]
  intro h
  rcases List.mem_append.mp h with h1 | h1
  · exact format03_int_no_slash h1
  · exact absurd h1 (by decide)

theorem slash_not_in_train_mask (k : Nat) : '/' ∉ (train_mask_filename k).data := by
  rw [train_mask_filename, String.data_append]
  intro h
  rcases List.mem_append.mp h with h1 | h1
  · exact format03_int_no_slash h1
  · exact absurd h1 (by decide)

theorem slash_not_in_test_image (k : Nat) : '/' ∉ (test_image_filename k).data := by
  rw [test_image_filename, String.data_append]
  intro h
  rcases List.mem_append.mp h with h1 | h1
  · have := format03_nat_chars _ h1
    exact absurd this (by decide)
  · exact absurd h1 (by decide)

/-- The key parsed back from a joined canonical image path equals the
key parsed from the corresponding mask path. -/
theorem key_of_image_eq_key_of_mask (d : String) (k : Nat) :
    img_number_from_name (base_name (path_join d (train_image_filename k)))
      = img_number_from_name (base_name (path_join d (train_mask_filename k))) := by
  rw [base_name_path_join d (slash_not_in_train_image k),
    base_name_path_join d (slash_not_in_train_mask k)]
  rw [train_image_filename, train_mask_filename]
  rw [img_number_format03_suffix _ _ underscore_suffix_img,
    img_number_format03_suffix _ _ underscore_suffix_mask]

/-- C2: a TRAIN-role instance built over an archive containing, for every
train image number, exactly one image member and one mask member with
that number, has equally many images and masks, and at every position
the numeric key embedded in the image filename equals the key embedded
in the mask filename. -/
theorem C2_train_correspondence (root : String) (members listing : List String) (fs : FS)
    (nsI nsM : List Nat)
    (hI : (members.filter (fun m => starts_with m kaggle_folder_train_images)).mapM
        img_number_from_name = some nsI)
    (hM : (members.filter (fun m => starts_with m kaggle_folder_train_masks)).mapM
        img_number_from_name = some nsM)
    (hNodup : nsI.Nodup) (hMI : List.Perm nsM nsI) (hne : nsI ≠ [])
    (hex : ¬ check_exists root true fs = true)
    (hlist : List.Perm listing
      (nsI.map train_image_filename ++ nsM.map train_mask_filename)) :
    ∃ st, dataset_init root true true (.ok members) listing fs = (.ok st, 1)
      ∧ st.images.length = st.masks.length
      ∧ ∀ i (h1 : i < st.images.length) (h2 : i < st.masks.length),
          img_number_from_name (base_name (st.images.get ⟨i, h1⟩))
            = img_number_from_name (base_name (st.masks.get ⟨i, h2⟩)) := by
  obtain ⟨fs2, hloop⟩ := unzip_loop_train_spec (download_fs root fs) 0 hI hM
  have hu := unzip_train_ok hloop
  have hdl : download root true (.ok members) fs = (.ok fs2, 1) := by
    rw [download_unzips hex, hu]
  have hcr : folder_train root ∈ fs2.dirs := by
    have h0 := unzip_loop_match_creates hloop (exists_train_match_of_ns hI hne)
    rw [role_folder_true] at h0
    exact h0
  have hchk : check_exists root true fs2 = true := by
    rw [check_exists_iff, role_folder_true]
    exact hcr
  have hheadI : ∀ n : Nat, (train_image_filename n).data.head? ≠ some '/' := fun n => by
    rw [train_image_filename]
    exact format03_int_append_head _ _
  have hheadM : ∀ n : Nat, (train_mask_filename n).data.head? ≠ some '/' := fun n => by
    rw [train_mask_filename]
    exact format03_int_append_head _ _
  have hFinj : ∀ a b : Nat,
      (fun n => path_join (folder_train root) (train_image_filename n)) a
        = (fun n => path_join (folder_train root) (train_image_filename n)) b →
      a = b := fun a b h =>
    train_image_filename_inj (path_join_inj _ (hheadI a) (hheadI b) h)
  have hPimg : List.Perm (listing.filter (fun f => substr_in "image" f))
      (nsI.map train_image_filename) := by
    refine filter_perm_split _ hlist ?_ ?_
    · intro a ha
      obtain ⟨n, -, rfl⟩ := List.mem_map.mp ha
      exact substr_image_in_image_name ((n : Int) - 1)
    · intro b hb
      obtain ⟨n, -, rfl⟩ := List.mem_map.mp hb
      exact substr_image_not_in_mask_name ((n : Int) - 1)
  have hPmask : List.Perm (listing.filter (fun f => substr_in "mask" f))
      (nsM.map train_mask_filename) := by
    refine filter_perm_split _ (hlist.trans List.perm_append_comm) ?_ ?_
    · intro a ha
      obtain ⟨n, -, rfl⟩ := List.mem_map.mp ha
      exact substr_mask_in_mask_name ((n : Int) - 1)
    · intro b hb
      obtain ⟨n, -, rfl⟩ := List.mem_map.mp hb
      exact substr_mask_not_in_image_name ((n : Int) - 1)
  have himg : py_sorted ((listing.filter (fun f => substr_in "image" f)).map
        (path_join (folder_train root)))
      = (nsI.insertionSort (fun a b =>
          str_le (path_join (folder_train root) (train_image_filename a))
            (path_join (folder_train root) (train_image_filename b)) = true)).map
          (fun n => path_join (folder_train root) (train_image_filename n)) := by
    rw [py_sorted_eq_of_perm (hPimg.map (path_join (folder_train root))),
      List.map_map]
    exact py_sorted_map_str _ _ (fun a b => Iff.rfl) nsI
  have hmask : py_sorted ((listing.filter (fun f => substr_in "mask" f)).map
        (path_join (folder_train root)))
      = (nsM.insertionSort (fun a b =>
          str_le (path_join (folder_train root) (train_image_filename a))
            (path_join (folder_train root) (train_image_filename b)) = true)).map
          (fun n => path_join (folder_train root) (train_mask_filename n)) := by
    rw [py_sorted_eq_of_perm (hPmask.map (path_join (folder_train root))),
      List.map_map]
    exact py_sorted_map_str _ _ (fun a b => str_le_img_iff_mask (folder_train root) a b) nsM
  have hkeys : nsM.insertionSort (fun a b =>
        str_le (path_join (folder_train root) (train_image_filename a))
          (path_join (folder_train root) (train_image_filename b)) = true)
      = nsI.insertionSort (fun a b =>
        str_le (path_join (folder_train root) (train_image_filename a))
          (path_join (folder_train root) (train_image_filename b)) = true) :=
    insertionSort_key_eq_of_perm _ _ (fun a b => Iff.rfl) hFinj hMI
  have hproc : process root true listing fs2 = .ok
      ⟨(nsI.insertionSort (fun a b =>
          str_le (path_join (folder_train root) (train_image_filename a))
            (path_join (folder_train root) (train_image_filename b)) = true)).map
          (fun n => path_join (folder_train root) (train_image_filename n)),
        (nsI.insertionSort (fun a b =>
          str_le (path_join (folder_train root) (train_image_filename a))
            (path_join (folder_train root) (train_image_filename b)) = true)).map
          (fun n => path_join (folder_train root) (train_mask_filename n)), []⟩ := by
    rw [process, if_pos rfl]
    show (Except.ok (⟨py_sorted ((listing.filter (fun f => substr_in "image" f)).map
          (path_join (folder_train root))),
        py_sorted ((listing.filter (fun f => substr_in "mask" f)).map
          (path_join (folder_train root))), []⟩ : DState) : Except DsError DState) = _
    rw [himg, hmask, hkeys]
  refine ⟨⟨(nsI.insertionSort (fun a b =>
      str_le (path_join (folder_train root) (train_image_filename a))
        (path_join (folder_train root) (train_image_filename b)) = true)).map
      (fun n => path_join (folder_train root) (train_image_filename n)),
    (nsI.insertionSort (fun a b =>
      str_le (path_join (folder_train root) (train_image_filename a))
        (path_join (folder_train root) (train_image_filename b)) = true)).map
      (fun n => path_join (folder_train root) (train_mask_filename n)), []⟩, ?_, ?_, ?_⟩
  · rw [dataset_init]
    have step : (if (true : Bool) = true then download root true (.ok members) fs
        else (.ok fs, 0)) = ((.ok fs2 : Except DsError FS), 1) := by
      rw [if_pos rfl, hdl]
    rw [step]
    simp only [if_pos hchk, hproc]
  · simp
  · intro i h1 h2
    simp only [List.get_eq_getElem, List.getElem_map]
    exact key_of_image_eq_key_of_mask (folder_train root) _

theorem C2_train_correspondence_witness :
    ∃ st, dataset_init "r" true true
        (.ok ["training/training/images/satImage_002.png",
          "training/training/images/satImage_001.png",
          "training/training/groundtruth/satImage_002.png",
          "training/training/groundtruth/satImage_001.png"])
        ["000_image.png", "001_mask.png", "001_image.png", "000_mask.png"] ⟨[], none⟩
        = (.ok st, 1)
      ∧ st.images.length = st.masks.length
      ∧ ∀ i (h1 : i < st.images.length) (h2 : i < st.masks.length),
          img_number_from_name (base_name (st.images.get ⟨i, h1⟩))
            = img_number_from_name (base_name (st.masks.get ⟨i, h2⟩)) :=
  C2_train_correspondence "r"
    ["training/training/images/satImage_002.png",
      "training/training/images/satImage_001.png",
      "training/training/groundtruth/satImage_002.png",
      "training/training/groundtruth/satImage_001.png"]
    ["000_image.png", "001_mask.png", "001_image.png", "000_mask.png"]
    ⟨[], none⟩ [2, 1] [2, 1] (by decide) (by decide) (by decide) (by decide)
    (by decide) (by decide) (by decide)

theorem substr_image_not_in_mask3 (k : Nat) :
    substr_in "image" (format03_nat k ++ "_mask.png") = false := by
  by_contra hc
  have h : substr_in "image" (format03_nat k ++ "_mask.png") = true := by
    revert hc
    cases substr_in "image" (format03_nat k ++ "_mask.png") <;> simp
  have hi : 'i' ∈ ((format03_nat k).data ++ ("_mask.png" : String).data) := by
    have := substr_in_list_subset h 'i' (by decide)
    simpa using this
  rcases List.mem_append.mp hi with h1 | h1
  · exact absurd (format03_nat_chars 'i' h1) (by decide)
  · exact absurd h1 (by decide)

theorem substr_mask_in_mask3 (k : Nat) :
    substr_in "mask" (format03_nat k ++ "_mask.png") = true := by
  show substr_in_list _ ((format03_nat k).data ++ _) = true
  refine substr_in_list_append_left _ ?_
  decide

theorem substr_mask_not_in_image3 (k : Nat) :
    substr_in "mask" (format03_nat k ++ "_image.png") = false := by
  by_contra hc
  have h : substr_in "mask" (format03_nat k ++ "_image.png") = true := by
    revert hc
    cases substr_in "mask" (format03_nat k ++ "_image.png") <;> simp
  have hi : 's' ∈ ((format03_nat k).data ++ ("_image.png" : String).data) := by
    have := substr_in_list_subset h 's' (by decide)
    simpa using this
  rcases List.mem_append.mp hi with h1 | h1
  · exact absurd (format03_nat_chars 's' h1) (by decide)
  · exact absurd h1 (by decide)

/-- C6: the scan is independent of the order the directory listing is
produced in; the images and masks lists it builds are sorted ascending
under the Python string order; and when the folder holds canonical
files with three-digit zero-padded keys, the images (and masks) come
out in ascending numeric key order. -/
theorem C6_sorted_scan (root : String) (train : Bool) (fs : FS)
    (listing listing2 : List String) (hperm : List.Perm listing listing2) :
    process root train listing fs = process root train listing2 fs
    ∧ (∀ st, process root train listing fs = .ok st →
        st.images.Pairwise (fun a b => str_le a b = true)
        ∧ st.masks.Pairwise (fun a b => str_le a b = true))
    ∧ (∀ ks msl : List Nat, (∀ k ∈ ks, k < 1000) → (∀ k ∈ msl, k < 1000) →
        List.Perm listing (ks.map (fun k => format03_nat k ++ "_image.png")
          ++ msl.map (fun k => format03_nat k ++ "_mask.png")) →
        process root true listing fs = .ok
          ⟨(ks.insertionSort (fun a b => a ≤ b)).map
              (fun k => path_join (folder_train root) (format03_nat k ++ "_image.png")),
            (msl.insertionSort (fun a b => a ≤ b)).map
              (fun k => path_join (folder_train root) (format03_nat k ++ "_mask.png")),
            []⟩) := by
  refine ⟨?_, ?_, ?_⟩
  · rw [process, process]
    by_cases htr : train = true
    · rw [if_pos htr, if_pos htr]
      simp only [py_sorted_eq_of_perm ((hperm.filter (fun f => substr_in "image" f)).map
          (path_join (folder_train root))),
        py_sorted_eq_of_perm ((hperm.filter (fun f => substr_in "mask" f)).map
          (path_join (folder_train root)))]
    · rw [if_neg htr, if_neg htr]
      cases hidx : fs.test_idx_file with
      | none => rfl
      | some ix =>
        simp only [py_sorted_eq_of_perm ((hperm.filter (fun f => substr_in "image" f)).map
            (path_join (folder_test root)))]
  · intro st h
    by_cases htr : train = true
    · rw [process, if_pos htr] at h
      simp only [Except.ok.injEq] at h
      rw [← h]
      exact ⟨py_sorted_sorted _, py_sorted_sorted _⟩
    · rw [process, if_neg htr] at h
      cases hidx : fs.test_idx_file with
      | none => rw [hidx] at h; simp at h
      | some ix =>
        rw [hidx] at h
        simp only [Except.ok.injEq] at h
        rw [← h]
        exact ⟨py_sorted_sorted _, py_sorted_sorted _⟩
  · intro ks msl hks hmsl hplist
    have hPimg : List.Perm (listing.filter (fun f => substr_in "image" f))
        (ks.map (fun k => format03_nat k ++ "_image.png")) := by
      refine filter_perm_split _ hplist ?_ ?_
      · intro a ha
        obtain ⟨n, -, rfl⟩ := List.mem_map.mp ha
        exact substr_image_in_test_name n
      · intro b hb
        obtain ⟨n, -, rfl⟩ := List.mem_map.mp hb
        exact substr_image_not_in_mask3 n
    have hPmask : List.Perm (listing.filter (fun f => substr_in "mask" f))
        (msl.map (fun k => format03_nat k ++ "_mask.png")) := by
      refine filter_perm_split _ (hplist.trans List.perm_append_comm) ?_ ?_
      · intro a ha
        obtain ⟨n, -, rfl⟩ := List.mem_map.mp ha
        exact substr_mask_in_mask3 n
      · intro b hb
        obtain ⟨n, -, rfl⟩ := List.mem_map.mp hb
        exact substr_mask_not_in_image3 n
    have hsortI : ks.insertionSort (fun a b =>
          str_le (path_join (folder_train root) (format03_nat a ++ "_image.png"))
            (path_join (folder_train root) (format03_nat b ++ "_image.png")) = true)
        = ks.insertionSort (fun a b => a ≤ b) := by
      haveI hTot : IsTotal Nat (fun a b : Nat =>
          str_le (path_join (folder_train root) (format03_nat a ++ "_image.png"))
            (path_join (folder_train root) (format03_nat b ++ "_image.png")) = true) := by
        refine ⟨fun a b => ?_⟩
        rcases str_rel_total.total
          (path_join (folder_train root) (format03_nat a ++ "_image.png"))
          (path_join (folder_train root) (format03_nat b ++ "_image.png")) with h | h
        · exact Or.inl h
        · exact Or.inr h
      haveI hTr : IsTrans Nat (fun a b : Nat =>
          str_le (path_join (folder_train root) (format03_nat a ++ "_image.png"))
            (path_join (folder_train root) (format03_nat b ++ "_image.png")) = true) :=
        ⟨fun _ _ _ h1 h2 => str_le_trans h1 h2⟩
      refine List.eq_of_perm_of_sorted
        ((List.perm_insertionSort _ ks).trans (List.perm_insertionSort _ ks).symm) ?_
        (List.sorted_insertionSort _ ks)
      refine List.Pairwise.imp_of_mem ?_ (List.sorted_insertionSort _ ks)
      intro a b ha hb hab
      have hamem : a ∈ ks := ((List.perm_insertionSort _ ks).mem_iff).mp ha
      have hbmem : b ∈ ks := ((List.perm_insertionSort _ ks).mem_iff).mp hb
      exact (str_le_canonical3 (folder_train root) "_image.png"
        (hks a hamem) (hks b hbmem)).mp hab
    have hsortM : msl.insertionSort (fun a b =>
          str_le (path_join (folder_train root) (format03_nat a ++ "_mask.png"))
            (path_join (folder_train root) (format03_nat b ++ "_mask.png")) = true)
        = msl.insertionSort (fun a b => a ≤ b) := by
      haveI hTot : IsTotal Nat (fun a b : Nat =>
          str_le (path_join (folder_train root) (format03_nat a ++ "_mask.png"))
            (path_join (folder_train root) (format03_nat b ++ "_mask.png")) = true) := by
        refine ⟨fun a b => ?_⟩
        rcases str_rel_total.total
          (path_join (folder_train root) (format03_nat a ++ "_mask.png"))
          (path_join (folder_train root) (format03_nat b ++ "_mask.png")) with h | h
        · exact Or.inl h
        · exact Or.inr h
      haveI hTr : IsTrans Nat (fun a b : Nat =>
          str_le (path_join (folder_train root) (format03_nat a ++ "_mask.png"))
            (path_join (folder_train root) (format03_nat b ++ "_mask.png")) = true) :=
        ⟨fun _ _ _ h1 h2 => str_le_trans h1 h2⟩
      refine List.eq_of_perm_of_sorted
        ((List.perm_insertionSort _ msl).trans (List.perm_insertionSort _ msl).symm) ?_
        (List.sorted_insertionSort _ msl)
      refine List.Pairwise.imp_of_mem ?_ (List.sorted_insertionSort _ msl)
      intro a b ha hb hab
      have hamem : a ∈ msl := ((List.perm_insertionSort _ msl).mem_iff).mp ha
      have hbmem : b ∈ msl := ((List.perm_insertionSort _ msl).mem_iff).mp hb
      exact (str_le_canonical3 (folder_train root) "_mask.png"
        (hmsl a hamem) (hmsl b hbmem)).mp hab
    have himg : py_sorted ((listing.filter (fun f => substr_in "image" f)).map
          (path_join (folder_train root)))
        = (ks.insertionSort (fun a b => a ≤ b)).map
            (fun k => path_join (folder_train root) (format03_nat k ++ "_image.png")) := by
      rw [py_sorted_eq_of_perm (hPimg.map (path_join (folder_train root))),
        List.map_map, ← hsortI]
      exact py_sorted_map_str _ _ (fun a b => Iff.rfl) ks
    have hmask : py_sorted ((listing.filter (fun f => substr_in "mask" f)).map
          (path_join (folder_train root)))
        = (msl.insertionSort (fun a b => a ≤ b)).map
            (fun k => path_join (folder_train root) (format03_nat k ++ "_mask.png")) := by
      rw [py_sorted_eq_of_perm (hPmask.map (path_join (folder_train root))),
        List.map_map, ← hsortM]
      exact py_sorted_map_str _ _ (fun a b => Iff.rfl) msl
    rw [process, if_pos rfl]
    show (Except.ok (⟨py_sorted ((listing.filter (fun f => substr_in "image" f)).map
          (path_join (folder_train root))),
        py_sorted ((listing.filter (fun f => substr_in "mask" f)).map
          (path_join (folder_train root))), []⟩ : DState) : Except DsError DState) = _
    rw [himg, hmask]

theorem C6_sorted_scan_witness :
    process "r" true ["001_image.png", "000_mask.png", "000_image.png"] ⟨[], none⟩
      = process "r" true ["000_image.png", "001_image.png", "000_mask.png"] ⟨[], none⟩
    ∧ (∀ st, process "r" true ["001_image.png", "000_mask.png", "000_image.png"]
          ⟨[], none⟩ = .ok st →
        st.images.Pairwise (fun a b => str_le a b = true)
        ∧ st.masks.Pairwise (fun a b => str_le a b = true))
    ∧ (∀ ks msl : List Nat, (∀ k ∈ ks, k < 1000) → (∀ k ∈ msl, k < 1000) →
        List.Perm ["001_image.png", "000_mask.png", "000_image.png"]
          (ks.map (fun k => format03_nat k ++ "_image.png")
            ++ msl.map (fun k => format03_nat k ++ "_mask.png")) →
        process "r" true ["001_image.png", "000_mask.png", "000_image.png"] ⟨[], none⟩
          = .ok ⟨(ks.insertionSort (fun a b => a ≤ b)).map
              (fun k => path_join (folder_train "r") (format03_nat k ++ "_image.png")),
            (msl.insertionSort (fun a b => a ≤ b)).map
              (fun k => path_join (folder_train "r") (format03_nat k ++ "_mask.png")),
            []⟩) :=
  C6_sorted_scan "r" true ⟨[], none⟩
    ["001_image.png", "000_mask.png", "000_image.png"]
    ["000_image.png", "001_image.png", "000_mask.png"] (by decide)

end RSKaggle
